import Mathlib

/-!
Verification development for the `mozu-onpremise-app` launcher, a shallow
embedding of `src/main/orchestrator.ts` (class `Orchestrator`).

The embedding models:
* the shared mutable `LaunchStatus` record and the world state `W` of the
  orchestrator (status, the list of status snapshots pushed to the
  subscriber via `notify`, the recorded external command invocations, and
  the two tracked child-process handles);
* external effects (child process spawns, filesystem probes) through
  explicit oracle records (`ExecResult`, `Env`) supplied as inputs, while
  keeping every branch of the TypeScript control flow;
* the dotenv `parseDotEnv` / `stringifyDotEnv` pair over `List Char`
  (called `Str` here) so that JavaScript string primitives (`trim`,
  `split(/\r?\n/)`, `indexOf`, `JSON.stringify` escaping) are modelled
  character by character.

Strings that the claims never inspect (log lines, human-readable messages)
are kept as Lean `String` values copied verbatim from the source.
-/

namespace Orchestrator

/-- Top-level workflow step of `LaunchStatus.step`. -/
inductive Step where
  | idle
  | checkingTools
  | preparing
  | cloning
  | installing
  | starting
  | running
  | error
deriving DecidableEq

/-- Fine-grained per-process sub-step (`LaunchStatus.server/client.step`). -/
inductive SubStep where
  | idle
  | preparing
  | cloning
  | installing
  | building
  | starting
  | running
  | error
deriving DecidableEq

/-- A `{step, message}` sub-status pair. -/
structure SubStatus where
  step : SubStep
  message : Option String
deriving DecidableEq

/-- The `LaunchStatus` record.  TypeScript optional fields are `Option`s; the
nullable pid fields (`number | null`, field itself optional) are
`Option (Option Nat)`: `none` = field absent, `some none` = `null`. -/
structure LaunchStatus where
  step : Step
  message : Option String := none
  logs : List String := []
  serverPid : Option (Option Nat) := none
  frontendPid : Option (Option Nat) := none
  server : Option SubStatus := none
  client : Option SubStatus := none
deriving DecidableEq

/-- World state of one `Orchestrator` instance: the status record, the list of
status snapshots emitted to the subscriber (each `notify(this.status)` call
appends one), the external command invocations performed so far
(program, argument list, working-directory basename), and the two tracked
process handles (`none` = the TS field is `null`; the inner option is the
possibly-undefined pid). -/
structure W where
  status : LaunchStatus
  trace : List LaunchStatus
  execCalls : List (String × List String × String)
  frontendProc : Option (Option Nat)
  serverProc : Option (Option Nat)
deriving DecidableEq

/-- Fresh orchestrator world: `status = { step: 'idle', logs: [] }`, nothing
emitted, no processes. -/
def initW : W :=
  { status := { step := .idle }
    trace := []
    execCalls := []
    frontendProc := none
    serverProc := none }

/-- Position of a step in the fixed workflow ordering
`idle → checking-tools → preparing → cloning → installing → starting →
running`, with `error` on top (a jump to `error` is always "forward"). -/
def stepRank : Step → Nat
  | .idle => 0
  | .checkingTools => 1
  | .preparing => 2
  | .cloning => 3
  | .installing => 4
  | .starting => 5
  | .running => 6
  | .error => 7

/-- Install a new status record, emitting it to the subscriber when a
`notify` callback is present. -/
def notifyW (notif : Bool) (w : W) (st : LaunchStatus) : W :=
  { w with status := st, trace := if notif then w.trace ++ [st] else w.trace }

/-- Model of `update({ step, message }, notify)` — object-spread merge: only `step` and
`message` change, `logs` and every other field are preserved. -/
def update (notif : Bool) (w : W) (s : Step) (msg : String) : W :=
  notifyW notif w { w.status with step := s, message := some msg }

/-- Model of `log(line, notify)` — append one line to `logs` (the TS guard
`this.status.logs ? [...] : [line]` always takes the spread branch because
`logs` is initialised to `[]`, and `[]` is truthy). -/
def log (notif : Bool) (w : W) (line : String) : W :=
  notifyW notif w { w.status with logs := w.status.logs ++ [line] }

/-- Model of `updateServer(step, message, notify)` — replaces the `server` sub-status,
touching nothing else. -/
def updateServer (notif : Bool) (w : W) (s : SubStep) (msg : String) : W :=
  notifyW notif w { w.status with server := some ⟨s, some msg⟩ }

/-- Model of `updateClient(step, message, notify)` — replaces the `client` sub-status,
touching nothing else. -/
def updateClient (notif : Bool) (w : W) (s : SubStep) (msg : String) : W :=
  notifyW notif w { w.status with client := some ⟨s, some msg⟩ }

/-- Oracle describing what one spawned child process did:
a spawn-time `error` event (`some msg`), the stdout/stderr chunks in arrival
order (`true` = stderr), the exit code (`none` = `null`, killed by signal)
and the signal. -/
structure ExecResult where
  spawnErr : Option String := none
  lines : List (Bool × String) := []
  exitCode : Option Int := some 0
  signal : Option String := none
deriving DecidableEq

/-- Structured failure of `execStream`: the rejected `Error` either comes from
the `error` (spawn failure) event, or from a non-zero exit, carrying the exit
code, signal and the retained recent stderr error lines. -/
inductive ExecFailure where
  | spawnFail (msg : String)
  | exitFail (cmd : String) (code : Option Int) (signal : Option String)
      (lastErrorLines : List String)
deriving DecidableEq

/-- JavaScript whitespace class `\s` (ASCII part), also used by `trim`. -/
def isJsSpace (c : Char) : Bool :=
  c = ' ' || c = '\t' || c = '\n' || c = '\r' || c = '\x0b' || c = '\x0c'

/-- Model of `s.trim()` over a char list (strip JS whitespace from both ends). -/
def trimL (s : List Char) : List Char :=
  ((s.dropWhile isJsSpace).reverse.dropWhile isJsSpace).reverse

/-- Model of `s.trim()` on a string. -/
def jsTrim (s : String) : String := ⟨trimL s.toList⟩

/-- Model of `haystack.startsWith(needle)` over char lists. -/
def startsL : List Char → List Char → Bool
  | [], _ => true
  | _ :: _, [] => false
  | c :: p, d :: l => c = d && startsL p l

/-- Model of `haystack.includes(needle)` — contiguous-substring test, over char lists. -/
def includesL (needle : List Char) : List Char → Bool
  | [] => startsL needle []
  | hay@(_ :: t) => startsL needle hay || includesL needle t

/-- Model of `output.toLowerCase().includes('error' | 'failed' | 'exception')` — the
error-indicating keyword test applied to stderr chunks. -/
def errKeyword (s : String) : Bool :=
  let l := s.toList.map Char.toLower
  includesL "error".toList l || includesL "failed".toList l ||
    includesL "exception".toList l

/-- The tag + trimmed text logged for one stdout/stderr chunk. -/
def tagLine (p : Bool × String) : String :=
  (if p.1 then "[build:err] " else "[build:out] ") ++ jsTrim p.2

/-- Relay every output chunk into the shared log in arrival order. -/
def streamLogs (notif : Bool) (lines : List (Bool × String)) (w : W) : W :=
  lines.foldl (fun acc p => log notif acc (tagLine p)) w

/-- The stderr chunks (trimmed) that contain an error-indicating keyword, in
arrival order — the `errorMessages` accumulator of `execStream`. -/
def errLines (lines : List (Bool × String)) : List String :=
  (lines.filter (fun p => p.1 && errKeyword (jsTrim p.2))).map
    (fun p => jsTrim p.2)

/-- Model of `` `[exec] ${cmd} ${args.join(' ')} @ ${path.basename(cwd)}` `` -/
def invocLine (cmd : String) (args : List String) (cwdBase : String) : String :=
  "[exec] " ++ cmd ++ " " ++ String.intercalate " " args ++ " @ " ++ cwdBase

/-- Render an exit code the way template literals render `number | null`. -/
def showCode : Option Int → String
  | none => "null"
  | some c => toString c

/-- Render a signal the way template literals render `string | null`. -/
def showSig : Option String → String
  | none => "null"
  | some s => s

/-- Model of `errorMessages.slice(-3)` — the most recent (up to) `n` entries. -/
def lastN (n : Nat) (l : List String) : List String := l.drop (l.length - n)

/-- The `errorSummary` string built on a non-zero exit. -/
def mkSummary (lastErr : List String) : String :=
  if lastErr = [] then "상세한 에러 메시지는 위 로그를 확인하세요"
  else "주요 에러: " ++ String.intercalate ", " lastErr

/-- Model of `execStream(cmd, args, cwd, notify, shell, env)`: records the invocation,
logs it before any output, relays output lines, and resolves exactly on exit
code 0; rejects with a spawn failure or an exit failure otherwise. -/
def execStream (notif : Bool) (cmd : String) (args : List String)
    (cwdBase : String) (r : ExecResult) (w : W) : Except (ExecFailure × W) W :=
  let w := { w with execCalls := w.execCalls ++ [(cmd, args, cwdBase)] }
  let w := log notif w (invocLine cmd args cwdBase)
  match r.spawnErr with
  | some e =>
    let w := log notif w ("[exec] Process error: " ++ e)
    .error (.spawnFail e, w)
  | none =>
    let w := streamLogs notif r.lines w
    if r.exitCode = some 0 then .ok w
    else
      let lastErr := lastN 3 (errLines r.lines)
      let w := if r.lines = [] then
          log notif w "[exec] No output from command - possible permission or path issue"
        else w
      let w := log notif w ("[exec] ❌ " ++ cmd ++ " failed (code=" ++ showCode r.exitCode
        ++ ", signal=" ++ showSig r.signal ++ ")")
      let w := log notif w ("[exec] " ++ mkSummary lastErr)
      .error (.exitFail cmd r.exitCode r.signal lastErr, w)

/-- The `message` of the rejected `Error` object. -/
def ExecFailure.msgOf : ExecFailure → String
  | .spawnFail m => m
  | .exitFail cmd code _ lastErr =>
    cmd ++ " exited with code " ++ showCode code ++ ". " ++ mkSummary lastErr

/-- Model of `execStream` as used by the workflow: the rejection is observed through
the `Error`'s `message`. -/
def execStreamRun (notif : Bool) (cmd : String) (args : List String)
    (cwdBase : String) (r : ExecResult) (w : W) : Except (String × W) W :=
  match execStream notif cmd args cwdBase r w with
  | .ok w => .ok w
  | .error (f, w) => .error (f.msgOf, w)

/-- The `frontend` part of `RepoConfig` (src/shared/types.ts). -/
structure FrontendCfg where
  url : String
  branch : Option String := none
  startCommand : Option String := none
  installCommand : Option String := none
deriving DecidableEq

/-- Model of `RepoConfig` as consumed by this orchestrator variant (the `server`
repository sync and launch are commented out in `start`). -/
structure RepoConfig where
  frontend : FrontendCfg
  workspaceDir : Option String := none
deriving DecidableEq

/-- Oracle for every external effect one `start(config)` run can observe:
platform, filesystem probes (`fs.existsSync`), and the outcome of each child
process the workflow may spawn.  Each field corresponds to one concrete probe
or command in `orchestrator.ts`. -/
structure Env where
  isWin : Bool := false
  /-- Model of `fs.existsSync(appPath/.env)` at the top of `start`. -/
  rootEnvExists : Bool := false
  /-- Model of `execChecked('git', ['--version'])` succeeded. -/
  gitOk : Bool := true
  /-- Model of `execChecked(npm, ['--version'])` succeeded. -/
  npmOk : Bool := true
  /-- Model of `execChecked('yarn', ['--version'])` succeeded. -/
  yarnOk : Bool := true
  /-- outcome of `execStream(npm, ['install','-g','yarn'], homedir)`. -/
  yarnInstall : ExecResult := {}
  /-- Model of `execChecked('java', ['--version'])` succeeded. -/
  javaOk : Bool := true
  /-- Model of `execChecked('javac', ['--version'])` succeeded. -/
  javacOk : Bool := true
  /-- Model of `execChecked('gradle', ['--version'])` in `ensureTools` succeeded. -/
  gradleOk : Bool := true
  /-- Model of `fs.mkdirSync` failure in `ensureWorkspace` (`some msg` = it threw). -/
  workspaceErr : Option String := none
  /-- Model of `fs.existsSync(frontDir/.git)`. -/
  frontHasGit : Bool := false
  /-- outcome of the `git clone`/`git pull` child process. -/
  gitExec : ExecResult := {}
  /-- per-file success of `fs.writeFileSync` in `createFrontendEnvFiles`. -/
  envWriteOk : String → Bool := fun _ => true
  /-- Model of `fs.existsSync(build.gradle | build.gradle.kts)` in the front dir. -/
  hasGradleBuild : Bool := false
  /-- Model of `fs.existsSync(frontDir/gradlew)`. -/
  hasGradlew : Bool := false
  /-- Model of `execChecked('gradle', ['--version'])` in the gradle fallback paths. -/
  gradleCheckOk : Bool := true
  /-- Model of `fs.existsSync(frontDir/yarn.lock)`. -/
  hasYarnLock : Bool := false
  /-- Model of `fs.existsSync(frontDir/pnpm-lock.yaml)`. -/
  hasPnpmLock : Bool := false
  /-- Model of `fs.existsSync(frontDir/package-lock.json)`. -/
  hasNpmLock : Bool := false
  /-- outcome of the dependency install/build child process. -/
  installExec : ExecResult := {}
  /-- outcome of the `@emotion/is-prop-valid` peer-dependency install. -/
  peerExec : ExecResult := {}
  /-- Model of `readJsonIfExists(frontDir/package.json)` returned an object. -/
  hasPackageJson : Bool := true
  /-- Model of `package.json` has a `start:dev` script. -/
  pkgHasStartDev : Bool := false
  /-- Model of `package.json` has a `start` script. -/
  pkgHasStart : Bool := false
  /-- Model of `fs.existsSync(frontDir/node_modules/.bin/nest[.cmd])`. -/
  hasLocalNest : Bool := false
  /-- Model of `spawn(...).pid` of the frontend process (`none` = undefined). -/
  spawnPid : Option Nat := some 42

/-- Model of `npm` / `npm.cmd` depending on platform (`npmCmd`). -/
def npmName (isWin : Bool) : String := if isWin then "npm.cmd" else "npm"

/-- Model of `./gradlew` / `gradlew.bat` depending on platform. -/
def gradlewName (isWin : Bool) : String :=
  if isWin then "gradlew.bat" else "./gradlew"

/-- The yarn check: probe `yarn --version`; when absent, try a global install
via npm and fail the whole preflight if that also fails. -/
def ensureYarnTool (e : Env) (w : W) : Except (String × W) W :=
  if e.yarnOk then .ok w
  else
    let w1 := log false w "[tools] yarn not found. Attempting to install globally via npm..."
    match execStreamRun false (npmName e.isWin) ["install", "-g", "yarn"] "home"
        e.yarnInstall w1 with
    | .ok w2 => .ok (log false w2 "[tools] yarn has been installed globally.")
    | .error (_, w2) =>
      let w3 := log false w2 "[tools] Failed to install yarn globally."
      .error ("yarn을 찾을 수 없으며, npm을 통해 전역으로 설치하는 데에도 실패했습니다. 수동으로 yarn을 설치하고 다시 시도하세요.", w3)

/-- The Java check: probe `java --version`, fall back to `javac --version`,
fail the preflight when neither is present. -/
def ensureJavaTool (e : Env) (w : W) : Except (String × W) W :=
  if e.javaOk then .ok (log false w "[tools] Java found.")
  else
    let w1 := log false w "[tools] Java not found. Checking for javac..."
    if e.javacOk then .ok (log false w1 "[tools] Java Development Kit found.")
    else .error ("Java가 설치되지 않았거나 PATH에 없습니다. Kotlin Spring Boot 서버 실행을 위해 JDK 17 이상을 설치하고 다시 시도하세요.", w1)

/-- Model of `ensureTools(notify?)` — git, npm, yarn (with auto-install), Java (with
javac fallback), and a soft-fail Gradle probe. -/
def ensureTools (e : Env) (w : W) : Except (String × W) W :=
  if e.gitOk = false then
    .error ("git이 설치되지 않았거나 PATH에 없습니다. git을 설치하고 다시 시도하세요.", w)
  else if e.npmOk = false then
    .error ("npm이 설치되지 않았거나 PATH에 없습니다. Node.js와 npm을 설치하고 다시 시도하세요.", w)
  else
    match ensureYarnTool e w with
    | .error x => .error x
    | .ok w =>
      match ensureJavaTool e w with
      | .error x => .error x
      | .ok w =>
        .ok (if e.gradleOk then log false w "[tools] Gradle found."
             else log false w "[tools] Gradle not found. Will use gradlew if available.")

/-- Model of `ensureWorkspace(custom?)` — create the workspace and the `server/` and
`frontend/` subdirectories; only observable failure is a thrown fs error. -/
def ensureWorkspace (e : Env) (w : W) : Except (String × W) W :=
  match e.workspaceErr with
  | some m => .error (m, w)
  | none => .ok w

/-- Model of `cloneOrPull(targetDir, url, branch?, notify?)`: pull when
`targetDir/.git` exists, otherwise `git clone <url> .` in the target
directory, splicing `-b <branch>` in at index 1 when a branch is given. -/
def cloneOrPull (notif : Bool) (hasGit : Bool) (url : String)
    (branch : Option String) (dirBase : String) (r : ExecResult) (w : W) :
    Except (String × W) W :=
  if hasGit then
    let w := log notif w ("[git] pull in " ++ dirBase ++ "...")
    execStreamRun notif "git" ["pull"] dirBase r w
  else
    let w := log notif w ("[git] clone " ++ url ++ " -> " ++ dirBase ++ "...")
    let base := ["clone", url, "."]
    let args := match branch with
      | some b => base.take 1 ++ ["-b", b] ++ base.drop 1
      | none => base
    execStreamRun notif "git" args dirBase r w

/-- The four fixed env-file paths written inside the frontend tree. -/
def envPaths : List String :=
  ["packages/admin/.env", "packages/student/.env", "packages/ui/.env",
   "packages/util-config/.env"]

/-- The write loop: one log per created file; the first failing write is
logged and aborts the step with a named-file error. -/
def writeEnvLoop (notif : Bool) (ok : String → Bool) :
    List String → W → Except (String × W) W
  | [], w => .ok w
  | p :: rest, w =>
    if ok p then
      writeEnvLoop notif ok rest (log notif w ("[env] Created .env file at " ++ p))
    else
      let w := log notif w ("[env] Failed to create .env file at " ++ p ++ ": Error")
      .error ("Failed to create .env file at " ++ p, w)

/-- Model of `createFrontendEnvFiles(frontDir, notify?)`. -/
def createFrontendEnvFiles (e : Env) (notif : Bool) (w : W) :
    Except (String × W) W :=
  let w := log notif w "[env] Creating .env files for frontend from root .env..."
  writeEnvLoop notif e.envWriteOk envPaths w

/-- Model of `cmd.replace('./gradlew','').trim().split(' ').filter(Boolean)` (the
replace removes the leading occurrence — all call sites are guarded by
`cmd.startsWith('./gradlew')`). -/
def gradlewArgsOf (cmd : String) : List String :=
  ((jsTrim (cmd.drop "./gradlew".length)).splitOn " ").filter (fun s => s ≠ "")

/-- Add `--info --stacktrace` to gradle build-ish invocations. -/
def gradleVerbose (baseArgs : List String) : List String :=
  if baseArgs.contains "build" || baseArgs.contains "bootRun" then
    baseArgs ++ ["--info", "--stacktrace"]
  else baseArgs

/-- The shared tail of `installDeps`: split the command on spaces, log it,
stream it; log success, or log the failure and rethrow. -/
def installShared (notif : Bool) (cmd : String) (r : ExecResult) (w : W) :
    Except (String × W) W :=
  let parts := cmd.splitOn " "
  let c := parts.headD ""
  let args := parts.tail
  let w := log notif w ("[deps] " ++ cmd ++ " @ frontend")
  let w := log notif w "[deps] 의존성 설치 시작..."
  match execStreamRun notif c args "frontend" r w with
  | .ok w => .ok (log notif w "[deps] ✅ 의존성 설치 완료")
  | .error (m, w) =>
    .error (m, log notif w ("[deps] ❌ 의존성 설치 실패: Error: " ++ m))

/-- The gradle-wrapper branch of `installDeps` (both the gradlew and the
`gradle` fallback sub-branches), shared command runner. -/
def installGradleRun (notif : Bool) (gp : String) (args : List String)
    (r : ExecResult) (w : W) : Except (String × W) W :=
  let aStr := String.intercalate " " args
  let w := log notif w ("[deps] " ++ gp ++ " " ++ aStr ++ " @ frontend")
  let w := log notif w "[deps] 빌드 시작 - 상세 로그가 표시됩니다..."
  match execStreamRun notif gp args "frontend" r w with
  | .ok w => .ok (log notif w "[deps] ✅ 빌드 완료")
  | .error (m, w) =>
    .error (m, log notif w ("[deps] ❌ 빌드 실패: Error: " ++ m))

/-- The gradle-project branch of `installDeps`: handle a `./gradlew`-style
command (wrapper present, or `gradle` fallback after a version probe); any
other command shape falls through to the shared tail. -/
def installDepsGradle (e : Env) (notif : Bool) (cmd : String) (w : W) :
    Except (String × W) W :=
  if cmd.startsWith "./gradlew" then
    if e.hasGradlew then
      installGradleRun notif (gradlewName e.isWin)
        (gradleVerbose (gradlewArgsOf cmd)) e.installExec w
    else
      let w := log notif w "[deps] gradlew not found, falling back to gradle command"
      if e.gradleCheckOk = false then
        .error ("gradlew 파일이 없고 Gradle도 설치되지 않았습니다. Gradle을 설치하거나 gradlew wrapper가 포함된 프로젝트를 사용해주세요.", w)
      else
        installGradleRun notif "gradle" (gradleVerbose (gradlewArgsOf cmd))
          e.installExec w
  else
    installShared notif cmd e.installExec w

/-- Model of `installDeps(targetDir, installCommand?, notify?)` for the frontend
directory. -/
def installDeps (e : Env) (installCommand : Option String) (notif : Bool)
    (w : W) : Except (String × W) W :=
  if e.hasGradleBuild then
    let cmd := match installCommand with
      | some c => c
      | none =>
        if e.hasGradlew then gradlewName e.isWin ++ " build" else "gradle build"
    installDepsGradle e notif cmd w
  else
    let cmd1 := match installCommand with
      | some c =>
        if startsL "yarn".toList (jsTrim c).toList then "corepack yarn install"
        else c
      | none => ""
    let cmd :=
      if cmd1 = "" then
        if e.hasYarnLock then "corepack yarn install"
        else if e.hasPnpmLock then "pnpm install"
        else if e.hasNpmLock then "npm ci"
        else "npm install"
      else cmd1
    installShared notif cmd e.installExec w

/-- Model of `detectPM(targetDir).addCmd()` — the package-manager `add` invocation
used for the peer-dependency install. -/
def detectPMAdd (e : Env) : String × List String :=
  if e.hasYarnLock then ("yarn", ["add"])
  else if e.hasPnpmLock then ("pnpm", ["add"])
  else (npmName e.isWin, ["install", "--save"])

/-- The resolved start invocation. -/
structure StartCmd where
  cmd : String
  args : List String
  label : String
deriving DecidableEq

/-- Regex word character `[A-Za-z0-9_]`. -/
def isWordChar (c : Char) : Bool := c.isAlphanum || c = '_'

/-- Model of `/^nest(\.cmd)?\s+start(\b|$)/.test(s)`. -/
def nestStartTest (s : String) : Bool :=
  let l := s.toList
  if startsL "nest".toList l then
    let l1 := l.drop 4
    let l2 := if startsL ".cmd".toList l1 then l1.drop 4 else l1
    match l2 with
    | [] => false
    | c :: _ =>
      if isJsSpace c then
        let l3 := l2.dropWhile isJsSpace
        if startsL "start".toList l3 then
          match l3.drop 5 with
          | [] => true
          | d :: _ => !(isWordChar d)
        else false
      else false
  else false

/-- Model of `frontDir/node_modules/.bin/nest[.cmd]` (path rendered with the
directory basename). -/
def localNestPath (isWin : Bool) : String :=
  if isWin then "frontend/node_modules/.bin/nest.cmd"
  else "frontend/node_modules/.bin/nest"

/-- The package-manager name used by `detectPM(targetDir).pm`. -/
def pmName (e : Env) : String :=
  if e.hasYarnLock then "yarn" else if e.hasPnpmLock then "pnpm" else "npm"

/-- Default gradle start command (`bootRun` with diagnostic flags). -/
def defaultGradleStart (e : Env) : Except String StartCmd :=
  if e.hasGradlew then
    .ok ⟨gradlewName e.isWin, ["bootRun", "--info", "--stacktrace", "--debug"],
      "gradlew bootRun --info --stacktrace --debug"⟩
  else
    .ok ⟨"gradle", ["bootRun", "--info", "--stacktrace", "--debug"],
      "gradle bootRun --info --stacktrace --debug"⟩

/-- Fallback: local nest binary, then `npx nest`. -/
def fallbackNest (e : Env) : Except String StartCmd :=
  if e.hasLocalNest then
    .ok ⟨localNestPath e.isWin, ["start", "--watch"], "local nest (fallback)"⟩
  else .ok ⟨"npx", ["nest", "start", "--watch"], "npx nest (fallback)"⟩

/-- Model of `package.json` scripts resolution: `start:dev`, then `start`, then the
nest fallback. -/
def pkgScripts (e : Env) : Except String StartCmd :=
  let pm := pmName e
  if e.pkgHasStartDev then .ok ⟨pm, ["run", "start:dev"], pm ++ " run start:dev"⟩
  else if e.pkgHasStart then .ok ⟨pm, ["run", "start"], pm ++ " run start"⟩
  else fallbackNest e

/-- Model of `resolveStartCommand(targetDir, requested?)`. -/
def resolveStartCommand (e : Env) (requested : Option String) :
    Except String StartCmd :=
  if e.hasGradleBuild then
    match requested with
    | some req =>
      if jsTrim req ≠ "" then
        if req.startsWith "./gradlew" then
          if e.hasGradlew then
            .ok ⟨gradlewName e.isWin, gradlewArgsOf req, "gradlew (requested)"⟩
          else if e.gradleCheckOk then
            .ok ⟨"gradle", gradlewArgsOf req, "gradle (fallback)"⟩
          else
            .error "gradlew 파일이 없고 Gradle도 설치되지 않았습니다. Gradle을 설치하거나 gradlew wrapper가 포함된 프로젝트를 사용해주세요."
        else
          .ok ⟨(req.splitOn " ").headD "", (req.splitOn " ").tail, "requested"⟩
      else defaultGradleStart e
    | none => defaultGradleStart e
  else
    if (match requested with | some r => nestStartTest r | none => false) then
      if e.hasLocalNest then
        .ok ⟨localNestPath e.isWin, ["start", "--watch"], "local nest"⟩
      else .ok ⟨"npx", ["nest", "start", "--watch"], "npx nest"⟩
    else
      if e.hasPackageJson then
        match requested with
        | some req =>
          if jsTrim req ≠ "" then
            .ok ⟨(req.splitOn " ").headD "", (req.splitOn " ").tail, "requested"⟩
          else pkgScripts e
        | none => pkgScripts e
      else fallbackNest e

/-- The fatal remediation message thrown when the `mysql` client binary is
missing from PATH. -/
def mysqlMissingMsg : String :=
  "`mysql` 명령어를 찾을 수 없습니다. MySQL을 설치하고, 설치 경로의 `bin` 폴더를 시스템 환경 변수 PATH에 추가했는지 확인하세요."

/-- Relay the mysql client's output into the log, `[mysql]`-tagged. -/
def dbLogLines (notif : Bool) (lines : List (Bool × String)) (w : W) : W :=
  lines.foldl (fun acc p => log notif acc ("[mysql] " ++ jsTrim p.2)) w

/-- Model of `createDatabaseIfNeeded(db, notify?)`: issue
`CREATE DATABASE IF NOT EXISTS ...` through the `mysql` client.  A spawn
error whose message contains `ENOENT` is rethrown as the fatal remediation
error; every other failure (other spawn errors, non-zero exit) is logged and
the function returns normally. -/
def createDatabaseIfNeeded (notif : Bool) (dbName : String) (r : ExecResult)
    (w : W) : Except (String × W) W :=
  match r.spawnErr with
  | some e =>
    if includesL "ENOENT".toList e.toList then .error (mysqlMissingMsg, w)
    else .ok (log notif w ("[mysql] DB 생성 실패: " ++ e))
  | none =>
    let w := dbLogLines notif r.lines w
    if r.exitCode = some 0 then
      .ok (log notif w ("[mysql] ensured database \"" ++ dbName ++ "\""))
    else
      .ok (log notif w ("[mysql] DB 생성 실패: mysql exited with code "
        ++ showCode r.exitCode))

/-- The `on('exit', (code, signal) => ...)` handler attached to the frontend
process: log the exit, then downgrade only the `client` sub-status —
`error` on a non-zero (or null) code, `idle` on code 0. -/
def frontendOnExit (notif : Bool) (code : Option Int) (signal : Option String)
    (w : W) : W :=
  let w := log notif w ("[frontend] exited (code=" ++ showCode code
    ++ ", signal=" ++ showSig signal ++ ")")
  if code ≠ some 0 then
    updateClient notif w .error "클라이언트가 예상치 못하게 종료되었습니다"
  else updateClient notif w .idle "클라이언트 종료됨"

/-- Model of `stop()`: best-effort kill of both tracked processes (fire-and-forget),
null both handles, and recreate the status record as
`{ step: 'idle', logs: [] }`.  `stop` has no notify callback, so nothing is
emitted. -/
def stop (w : W) : W :=
  { w with
    status := { step := .idle, logs := [] }
    frontendProc := none
    serverProc := none }

/-- The best-effort `@emotion/is-prop-valid` peer-dependency install of
`start`: failures are logged and swallowed. -/
def installPeerDep (e : Env) (w : W) : W :=
  let w := log true w "[deps] Installing missing peer dependency for framer-motion..."
  let pm := detectPMAdd e
  match execStreamRun true pm.1 (pm.2 ++ ["@emotion/is-prop-valid"])
      "frontend" e.peerExec w with
  | .ok w => w
  | .error (m, w) =>
    log true w ("[deps] Failed to install peer dependency: " ++ m)

/-- The spawn of the frontend process with its output/exit handlers, the
`running` sub-status updates, and the final `running` status publication
(with pid fields) — the tail of `start` after the start command resolves. -/
def startSpawn (e : Env) (fe : StartCmd) (w : W) : W :=
  let w := log true w ("[start] frontend via " ++ fe.label)
  let w := { w with frontendProc := some e.spawnPid }
  let w := updateServer true w .running "서버 실행 중"
  let w := updateClient true w .running "클라이언트 실행 중"
  let finalSt := { w.status with
    step := Step.running
    message := some "Running"
    serverPid := some none
    frontendPid := some e.spawnPid }
  notifyW true w finalSt

/-- The `starting`-to-`running` part of `start` up to the spawn. -/
def startTail (e : Env) (cfg : RepoConfig) (w : W) : Except (String × W) W :=
  let w := update true w .starting "Starting processes..."
  let w := updateClient true w .starting "클라이언트를 시작하고 있습니다..."
  match resolveStartCommand e cfg.frontend.startCommand with
  | .error m => .error (m, w)
  | .ok fe => .ok (startSpawn e fe w)

/-- The `try` body of `start(config, notify)`, step by step in source
order. -/
def startBody (e : Env) (cfg : RepoConfig) (w : W) : Except (String × W) W :=
  let w := if e.rootEnvExists then
      log true w "[env] Loaded root .env file into process environment."
    else w
  let w := update true w .checkingTools "Checking git and npm..."
  match ensureTools e w with
  | .error x => .error x
  | .ok w =>
  let w := update true w .preparing "Preparing workspace..."
  match ensureWorkspace e w with
  | .error x => .error x
  | .ok w =>
  let w := update true w .cloning "Syncing repositories..."
  match cloneOrPull true e.frontHasGit cfg.frontend.url cfg.frontend.branch
      "frontend" e.gitExec w with
  | .error x => .error x
  | .ok w =>
  match createFrontendEnvFiles e true w with
  | .error x => .error x
  | .ok w =>
  let w := update true w .installing "Installing frontend dependencies..."
  match installDeps e cfg.frontend.installCommand true w with
  | .error x => .error x
  | .ok w =>
  startTail e cfg (installPeerDep e w)

/-- Model of `start(config, notify)` — returns `{ ok: true }`, or catches the first
step failure, sets `step = 'error'` with the error's message
(`err?.message || String(err)`), and returns `{ ok: false, error }`. -/
def start (e : Env) (cfg : RepoConfig) (w : W) :
    (Bool × Option String) × W :=
  match startBody e cfg w with
  | .ok w' => ((true, none), w')
  | .error (m, w') =>
    let m2 := if m = "" then "Error" else m
    ((false, some m2), update true w' .error m2)

/-- Character list standing for a JavaScript string. -/
abbrev Str := List Char

/-- Model of `text.split(/\r?\n/)`: split on every `\n`, consuming one immediately
preceding `\r`. -/
def splitRN : Str → List Str
  | [] => [[]]
  | '\r' :: '\n' :: rest => [] :: splitRN rest
  | '\n' :: rest => [] :: splitRN rest
  | c :: rest =>
    match splitRN rest with
    | [] => [[c]]
    | l :: ls => (c :: l) :: ls

/-- Object assignment `out[key] = val`: overwrite in place when the key is
present, append otherwise. -/
def upsert (out : List (Str × Str)) (k v : Str) : List (Str × Str) :=
  if out.any (fun p => p.1 = k) then
    out.map (fun p => if p.1 = k then (k, v) else p)
  else out ++ [(k, v)]

/-- Strip one layer of surrounding matching quotes
(`'...'` or `"..."`), exactly as the `startsWith`/`endsWith`/`slice(1,-1)`
sequence does. -/
def stripQuotes (v : Str) : Str :=
  if (v.head? = some '\'' ∧ v.getLast? = some '\'') ∨
     (v.head? = some '"' ∧ v.getLast? = some '"') then
    (v.drop 1).dropLast
  else v

/-- One iteration of the `parseDotEnv` loop: trim, skip blank and `#` lines,
skip lines with no `=`, split on the first `=`, trim both sides, strip
surrounding quotes from the value, and assign. -/
def parseLine (out : List (Str × Str)) (raw : Str) : List (Str × Str) :=
  let line := trimL raw
  if line.isEmpty then out
  else if line.head? = some '#' then out
  else
    match line.findIdx? (fun c => c = '=') with
    | none => out
    | some eq =>
      let key := trimL (line.take eq)
      let val := stripQuotes (trimL (line.drop (eq + 1)))
      upsert out key val

/-- Model of `parseDotEnv(text)`. -/
def parseDotEnv (text : Str) : List (Str × Str) :=
  (splitRN text).foldl parseLine []

/-- The quoting trigger `/[\s#'"`]/.test(v)`. -/
def needsQuote (v : Str) : Bool :=
  v.any (fun c => isJsSpace c || c = '#' || c = '\'' || c = '"' || c = '`')

/-- Hex digit for `\uXXXX` escapes. -/
def hexDig (n : Nat) : Char := Nat.digitChar n

/-- Four-digit lowercase hex rendering of a code point below 0x10000. -/
def hex4 (n : Nat) : Str :=
  [hexDig (n / 4096 % 16), hexDig (n / 256 % 16), hexDig (n / 16 % 16),
   hexDig (n % 16)]

/-- Model of `JSON.stringify` escaping of one character inside a string literal. -/
def jsonEscapeChar (c : Char) : Str :=
  if c = '"' then ['\\', '"']
  else if c = '\\' then ['\\', '\\']
  else if c = '\n' then ['\\', 'n']
  else if c = '\r' then ['\\', 'r']
  else if c = '\t' then ['\\', 't']
  else if c = '\x08' then ['\\', 'b']
  else if c = '\x0c' then ['\\', 'f']
  else if c.toNat < 32 then '\\' :: 'u' :: hex4 c.toNat
  else [c]

/-- Model of `JSON.stringify(v)` for a string value. -/
def jsonQuote (v : Str) : Str :=
  '"' :: (v.map jsonEscapeChar).flatten ++ ['"']

/-- The serialised form of one value: JSON-quoted when it contains
whitespace, `#`, or any quote character; verbatim otherwise. -/
def encodeVal (v : Str) : Str :=
  if needsQuote v then jsonQuote v else v

/-- One `KEY=VALUE` output line. -/
def entryLine (p : Str × Str) : Str := p.1 ++ '=' :: encodeVal p.2

/-- Model of `stringifyDotEnv(obj)`: one line per entry, joined with `\n`, plus a
trailing newline. -/
def stringifyDotEnv (m : List (Str × Str)) : Str :=
  (List.intercalate ['\n'] (m.map entryLine)) ++ ['\n']

/-- Logs relation between two status snapshots: the earlier logs list is a
prefix of the later one. -/
def RL (a b : LaunchStatus) : Prop := a.logs <+: b.logs

/-- Step relation: the workflow step does not regress in the fixed
ordering. -/
def RS (a b : LaunchStatus) : Prop := stepRank a.step ≤ stepRank b.step

/-- The logs invariant: along the emitted trace followed by the current
status, logs only ever grow by appending. -/
def InvL (w : W) : Prop := List.Chain' RL (w.trace ++ [w.status])

/-- The step invariant: along the emitted trace followed by the current
status, the step rank never decreases. -/
def InvS (w : W) : Prop := List.Chain' RS (w.trace ++ [w.status])

/-- Step-preservation package of one workflow sub-step: the top-level step
and the frontend process handle are untouched, the trace is only extended,
every new snapshot carries the current step, and the logs invariant is
preserved. -/
def Pp (w w' : W) : Prop :=
  w'.status.step = w.status.step ∧
  w'.frontendProc = w.frontendProc ∧
  (∃ Δ, w'.trace = w.trace ++ Δ ∧ ∀ x ∈ Δ, x.step = w.status.step) ∧
  (InvL w → InvL w')

/-- State extraction from a step result (the state at the point where an
error was thrown, or the state on success). -/
def stOf : Except (String × W) W → W
  | .ok w => w
  | .error p => p.2

/-- Same, for the structured `execStream` failures. -/
def stOfF : Except (ExecFailure × W) W → W
  | .ok w => w
  | .error p => p.2

/-- No snapshot with `step = 'error'` has been emitted. -/
def NoErr (w : W) : Prop := ∀ x ∈ w.trace, x.step ≠ Step.error

/-- The step value `s` has been emitted to the subscriber. -/
def emitted (w : W) (s : Step) : Prop := s ∈ w.trace.map (fun st => st.step)

/-- The invariant carried through the workflow walk: the current step is `s`,
the logs and step invariants hold along the emitted trace, no error snapshot
has been emitted, and the frontend process has not been spawned. -/
structure Reach (w : W) (s : Step) : Prop where
  step_eq : w.status.step = s
  invL : InvL w
  invS : InvS w
  noErr : NoErr w
  fproc : w.frontendProc = none

/-- A sample run configuration (concrete scenario 1 of the spec). -/
def cfg0 : RepoConfig :=
  { frontend := { url := "https://example.com/app.git", branch := some "main" } }

/-- An oracle on which every workflow step succeeds. -/
def e0 : Env := {}

/-- An oracle on which the dependency install command exits with code 1 and
everything else succeeds. -/
def e1 : Env := { installExec := { exitCode := some 1 } }

/-- A world that has reached the `running` state with a spawned frontend. -/
def wRun : W :=
  { status := { step := Step.running, message := some "Running" }
    trace := []
    execCalls := []
    frontendProc := some (some 42)
    serverProc := none }

/-- Neither end of the list is a whitespace character. -/
def noEdgeSpace (l : Str) : Bool :=
  (match l.head? with | none => true | some c => !isJsSpace c) &&
  (match l.getLast? with | none => true | some c => !isJsSpace c)

/-- Conditions on a key under which one serialised entry parses back exactly:
no leading/trailing whitespace, no `=`, no line breaks, and it does not turn
the line into a comment. -/
def goodKey (k : Str) : Prop :=
  noEdgeSpace k = true ∧ '=' ∉ k ∧ '\n' ∉ k ∧ '\r' ∉ k ∧ k.head? ≠ some '#'

/-- Conditions on a value under which `JSON.stringify` quoting is inverted by
the parser's bare quote-stripping: no double quote, no backslash, no control
characters. -/
def goodVal (v : Str) : Prop :=
  '"' ∉ v ∧ '\\' ∉ v ∧ ∀ c ∈ v, 32 ≤ c.toNat

instance (k : Str) : Decidable (goodKey k) := by
  unfold goodKey
  infer_instance

instance (v : Str) : Decidable (goodVal v) := by
  unfold goodVal
  infer_instance

/-! ## Theorems -/

theorem RL_trans {a b c : LaunchStatus} (h1 : RL a b) (h2 : RL b c) : RL a c :=
  List.IsPrefix.trans h1 h2

theorem chain'_concat_iff {α : Type} {R : α → α → Prop} {l : List α} {a : α} :
    List.Chain' R (l ++ [a]) ↔
      List.Chain' R l ∧ ∀ x ∈ l.getLast?, R x a := by
  simp [List.chain'_append]

theorem chain'_concat_mono {α : Type} {R : α → α → Prop}
    (hT : ∀ x y z, R x y → R y z → R x z) {l : List α} {a b : α}
    (h : List.Chain' R (l ++ [a])) (hab : R a b) :
    List.Chain' R (l ++ [b]) := by
  rcases chain'_concat_iff.mp h with ⟨h1, h2⟩
  exact chain'_concat_iff.mpr ⟨h1, fun x hx => hT x a b (h2 x hx) hab⟩

theorem chain'_concat_emit {α : Type} {R : α → α → Prop}
    (hT : ∀ x y z, R x y → R y z → R x z) {l : List α} {a b : α}
    (h : List.Chain' R (l ++ [a])) (hab : R a b) (hbb : R b b) :
    List.Chain' R (l ++ [b, b]) := by
  have h1 : List.Chain' R (l ++ [b]) := chain'_concat_mono hT h hab
  have : List.Chain' R ((l ++ [b]) ++ [b]) := by
    refine chain'_concat_iff.mpr ⟨h1, ?_⟩
    intro x hx
    rw [List.getLast?_concat] at hx
    cases hx
    exact hbb
  simpa using this

/-- Emitting (or silently installing) a status whose logs extend the current
ones preserves the logs invariant. -/
theorem invL_notifyW {w : W} {st : LaunchStatus} (b : Bool)
    (h : RL w.status st) (hw : InvL w) : InvL (notifyW b w st) := by
  unfold InvL notifyW at *
  cases b with
  | false =>
    simpa using chain'_concat_mono (fun x y z (h1 : RL x y) (h2 : RL y z) => RL_trans h1 h2) hw h
  | true =>
    have hbb : RL st st := List.prefix_rfl
    simpa using chain'_concat_emit (fun x y z (h1 : RL x y) (h2 : RL y z) => RL_trans h1 h2) hw h hbb

theorem Pp_rfl {w : W} : Pp w w :=
  ⟨rfl, rfl, ⟨[], by simp, by simp⟩, id⟩

theorem Pp_trans {w w₁ w₂ : W} (h1 : Pp w w₁) (h2 : Pp w₁ w₂) : Pp w w₂ := by
  obtain ⟨hs1, hf1, ⟨Δ1, ht1, hΔ1⟩, hi1⟩ := h1
  obtain ⟨hs2, hf2, ⟨Δ2, ht2, hΔ2⟩, hi2⟩ := h2
  refine ⟨hs2.trans hs1, hf2.trans hf1, ⟨Δ1 ++ Δ2, ?_, ?_⟩, fun h => hi2 (hi1 h)⟩
  · rw [ht2, ht1, List.append_assoc]
  · intro x hx
    rcases List.mem_append.mp hx with hx | hx
    · exact hΔ1 x hx
    · rw [hΔ2 x hx, hs1]

theorem Pp_log (b : Bool) (w : W) (l : String) : Pp w (log b w l) := by
  unfold log notifyW
  refine ⟨rfl, rfl, ⟨?_, ?_, ?_⟩, fun h => invL_notifyW b (List.prefix_append _ _) h⟩
  · exact if b then [{ w.status with logs := w.status.logs ++ [l] }] else []
  · cases b <;> simp
  · cases b <;> simp

theorem Pp_updateClient (b : Bool) (w : W) (s : SubStep) (m : String) :
    Pp w (updateClient b w s m) := by
  unfold updateClient notifyW
  refine ⟨rfl, rfl, ⟨?_, ?_, ?_⟩, fun h => invL_notifyW b List.prefix_rfl h⟩
  · exact if b then [{ w.status with client := some ⟨s, some m⟩ }] else []
  · cases b <;> simp
  · cases b <;> simp

theorem Pp_updateServer (b : Bool) (w : W) (s : SubStep) (m : String) :
    Pp w (updateServer b w s m) := by
  unfold updateServer notifyW
  refine ⟨rfl, rfl, ⟨?_, ?_, ?_⟩, fun h => invL_notifyW b List.prefix_rfl h⟩
  · exact if b then [{ w.status with server := some ⟨s, some m⟩ }] else []
  · cases b <;> simp
  · cases b <;> simp

theorem Pp_execCallsSet (w : W) (c : String × List String × String) :
    Pp w { w with execCalls := w.execCalls ++ [c] } :=
  ⟨rfl, rfl, ⟨[], by simp, by simp⟩, fun h => h⟩

theorem stOf_execStreamRun (b : Bool) (cmd : String) (args : List String)
    (dir : String) (r : ExecResult) (w : W) :
    stOf (execStreamRun b cmd args dir r w) = stOfF (execStream b cmd args dir r w) := by
  unfold execStreamRun
  cases h : execStream b cmd args dir r w with
  | ok w' => simp [stOf, stOfF]
  | error p => simp [stOf, stOfF]

theorem streamLogs_cons (b : Bool) (p : Bool × String)
    (rest : List (Bool × String)) (w : W) :
    streamLogs b (p :: rest) w = streamLogs b rest (log b w (tagLine p)) := rfl

theorem Pp_streamLogs (b : Bool) (lines : List (Bool × String)) :
    ∀ w : W, Pp w (streamLogs b lines w) := by
  induction lines with
  | nil => intro w; exact Pp_rfl
  | cons p rest ih =>
    intro w
    rw [streamLogs_cons]
    exact Pp_trans (Pp_log b w (tagLine p)) (ih _)

theorem Pp_execStream (b : Bool) (cmd : String) (args : List String)
    (dir : String) (r : ExecResult) (w : W) :
    Pp w (stOfF (execStream b cmd args dir r w)) := by
  unfold execStream
  have h0 : Pp w (log b { w with execCalls := w.execCalls ++ [(cmd, args, dir)] }
      (invocLine cmd args dir)) :=
    Pp_trans (Pp_execCallsSet w _) (Pp_log _ _ _)
  cases hs : r.spawnErr with
  | some e =>
    exact Pp_trans h0 (Pp_log _ _ _)
  | none =>
    have hstream : Pp w (streamLogs b r.lines
        (log b { w with execCalls := w.execCalls ++ [(cmd, args, dir)] }
          (invocLine cmd args dir))) :=
      Pp_trans h0 (Pp_streamLogs _ _ _)
    by_cases hc : r.exitCode = some 0
    · simp only [if_pos hc]
      exact hstream
    · simp only [if_neg hc]
      have hif : Pp w (if r.lines = [] then
          log b (streamLogs b r.lines
            (log b { w with execCalls := w.execCalls ++ [(cmd, args, dir)] }
              (invocLine cmd args dir)))
            "[exec] No output from command - possible permission or path issue"
        else streamLogs b r.lines
            (log b { w with execCalls := w.execCalls ++ [(cmd, args, dir)] }
              (invocLine cmd args dir))) := by
        by_cases hl : r.lines = []
        · rw [if_pos hl]; exact Pp_trans hstream (Pp_log _ _ _)
        · rw [if_neg hl]; exact hstream
      exact Pp_trans (Pp_trans hif (Pp_log _ _ _)) (Pp_log _ _ _)

theorem Pp_execStreamRun (b : Bool) (cmd : String) (args : List String)
    (dir : String) (r : ExecResult) (w : W) :
    Pp w (stOf (execStreamRun b cmd args dir r w)) := by
  rw [stOf_execStreamRun]
  exact Pp_execStream b cmd args dir r w

theorem Pp_ensureYarnTool (e : Env) (w : W) : Pp w (stOf (ensureYarnTool e w)) := by
  unfold ensureYarnTool
  by_cases hy : e.yarnOk
  · simp only [if_pos hy]; exact Pp_rfl
  · simp only [if_neg hy]
    have hb := Pp_execStreamRun false (npmName e.isWin) ["install", "-g", "yarn"]
      "home" e.yarnInstall
      (log false w "[tools] yarn not found. Attempting to install globally via npm...")
    cases hEY : execStreamRun false (npmName e.isWin) ["install", "-g", "yarn"]
        "home" e.yarnInstall
        (log false w "[tools] yarn not found. Attempting to install globally via npm...") with
    | ok w2 =>
      rw [hEY] at hb
      exact Pp_trans (Pp_log _ _ _) (Pp_trans hb (Pp_log _ _ _))
    | error p =>
      rw [hEY] at hb
      obtain ⟨m, w2⟩ := p
      exact Pp_trans (Pp_log _ _ _) (Pp_trans hb (Pp_log _ _ _))

theorem Pp_ensureJavaTool (e : Env) (w : W) : Pp w (stOf (ensureJavaTool e w)) := by
  unfold ensureJavaTool
  by_cases hj : e.javaOk
  · simp only [if_pos hj]; exact Pp_log _ _ _
  · simp only [if_neg hj]
    by_cases hc : e.javacOk
    · simp only [if_pos hc]
      exact Pp_trans (Pp_log _ _ _) (Pp_log _ _ _)
    · simp only [if_neg hc]
      exact Pp_log _ _ _

theorem Pp_ensureTools (e : Env) (w : W) : Pp w (stOf (ensureTools e w)) := by
  unfold ensureTools
  by_cases hg : e.gitOk = false
  · simp only [if_pos hg]; exact Pp_rfl
  · simp only [if_neg hg]
    by_cases hn : e.npmOk = false
    · simp only [if_pos hn]; exact Pp_rfl
    · simp only [if_neg hn]
      split
      next x heq =>
        have hy := Pp_ensureYarnTool e w
        rw [heq] at hy
        exact hy
      next w2 heq =>
        have hy := Pp_ensureYarnTool e w
        rw [heq] at hy
        simp only [stOf] at hy
        split
        next x heq2 =>
          have hj := Pp_ensureJavaTool e w2
          rw [heq2] at hj
          exact Pp_trans hy hj
        next w3 heq2 =>
          have hj := Pp_ensureJavaTool e w2
          rw [heq2] at hj
          simp only [stOf] at hj
          by_cases hgr : e.gradleOk
          · simp only [if_pos hgr]
            exact Pp_trans hy (Pp_trans hj (Pp_log _ _ _))
          · simp only [if_neg hgr]
            exact Pp_trans hy (Pp_trans hj (Pp_log _ _ _))

theorem Pp_ensureWorkspace (e : Env) (w : W) :
    Pp w (stOf (ensureWorkspace e w)) := by
  unfold ensureWorkspace
  cases e.workspaceErr with
  | some m => exact Pp_rfl
  | none => exact Pp_rfl

theorem Pp_cloneOrPull (b hasGit : Bool) (url : String) (branch : Option String)
    (dir : String) (r : ExecResult) (w : W) :
    Pp w (stOf (cloneOrPull b hasGit url branch dir r w)) := by
  unfold cloneOrPull
  by_cases h : hasGit
  · simp only [if_pos h]
    exact Pp_trans (Pp_log _ _ _) (Pp_execStreamRun _ _ _ _ _ _)
  · simp only [if_neg h]
    exact Pp_trans (Pp_log _ _ _) (Pp_execStreamRun _ _ _ _ _ _)

theorem Pp_writeEnvLoop (b : Bool) (ok : String → Bool) :
    ∀ (l : List String) (w : W), Pp w (stOf (writeEnvLoop b ok l w)) := by
  intro l
  induction l with
  | nil => intro w; exact Pp_rfl
  | cons p rest ih =>
    intro w
    unfold writeEnvLoop
    by_cases hp : ok p
    · simp only [if_pos hp]
      exact Pp_trans (Pp_log _ _ _) (ih _)
    · simp only [if_neg hp]
      exact Pp_log _ _ _

theorem Pp_createFrontendEnvFiles (e : Env) (b : Bool) (w : W) :
    Pp w (stOf (createFrontendEnvFiles e b w)) := by
  unfold createFrontendEnvFiles
  exact Pp_trans (Pp_log _ _ _) (Pp_writeEnvLoop _ _ _ _)

theorem Pp_of_runEq {b : Bool} {cmd : String} {args : List String}
    {dir : String} {r : ExecResult} {w w2 : W}
    (heq : execStreamRun b cmd args dir r w = .ok w2) : Pp w w2 := by
  have hb := Pp_execStreamRun b cmd args dir r w
  rw [heq] at hb
  simpa [stOf] using hb

theorem Pp_of_runEqErr {b : Bool} {cmd : String} {args : List String}
    {dir : String} {r : ExecResult} {w : W} {m : String} {w2 : W}
    (heq : execStreamRun b cmd args dir r w = .error (m, w2)) : Pp w w2 := by
  have hb := Pp_execStreamRun b cmd args dir r w
  rw [heq] at hb
  simpa [stOf] using hb

theorem Pp_installShared (b : Bool) (cmd : String) (r : ExecResult) (w : W) :
    Pp w (stOf (installShared b cmd r w)) := by
  unfold installShared
  dsimp only
  split
  next w2 heq =>
    exact Pp_trans (Pp_trans (Pp_log _ _ _) (Pp_log _ _ _))
      (Pp_trans (Pp_of_runEq heq) (Pp_log _ _ _))
  next m w2 heq =>
    exact Pp_trans (Pp_trans (Pp_log _ _ _) (Pp_log _ _ _))
      (Pp_trans (Pp_of_runEqErr heq) (Pp_log _ _ _))

theorem Pp_installGradleRun (b : Bool) (gp : String) (args : List String)
    (r : ExecResult) (w : W) : Pp w (stOf (installGradleRun b gp args r w)) := by
  unfold installGradleRun
  dsimp only
  split
  next w2 heq =>
    exact Pp_trans (Pp_trans (Pp_log _ _ _) (Pp_log _ _ _))
      (Pp_trans (Pp_of_runEq heq) (Pp_log _ _ _))
  next m w2 heq =>
    exact Pp_trans (Pp_trans (Pp_log _ _ _) (Pp_log _ _ _))
      (Pp_trans (Pp_of_runEqErr heq) (Pp_log _ _ _))

theorem Pp_installDepsGradle (e : Env) (b : Bool) (cmd : String) (w : W) :
    Pp w (stOf (installDepsGradle e b cmd w)) := by
  unfold installDepsGradle
  by_cases h1 : cmd.startsWith "./gradlew"
  · simp only [if_pos h1]
    by_cases h2 : e.hasGradlew
    · simp only [if_pos h2]
      exact Pp_installGradleRun _ _ _ _ _
    · simp only [if_neg h2]
      by_cases h3 : e.gradleCheckOk = false
      · simp only [if_pos h3]
        exact Pp_log _ _ _
      · simp only [if_neg h3]
        exact Pp_trans (Pp_log _ _ _) (Pp_installGradleRun _ _ _ _ _)
  · simp only [if_neg h1]
    exact Pp_installShared _ _ _ _

theorem Pp_installDeps (e : Env) (ic : Option String) (b : Bool) (w : W) :
    Pp w (stOf (installDeps e ic b w)) := by
  unfold installDeps
  by_cases hg : e.hasGradleBuild
  · simp only [if_pos hg]
    exact Pp_installDepsGradle _ _ _ _
  · simp only [if_neg hg]
    exact Pp_installShared _ _ _ _

theorem RS_trans {a b c : LaunchStatus} (h1 : RS a b) (h2 : RS b c) : RS a c :=
  le_trans h1 h2

theorem chain'_rank_const {l : List LaunchStatus} {n : Nat}
    (h : ∀ y ∈ l, stepRank y.step = n) : List.Chain' RS l := by
  induction l with
  | nil => simp
  | cons a t ih =>
    cases t with
    | nil => simp
    | cons b t2 =>
      refine List.chain'_cons.mpr ⟨?_, ih ?_⟩
      · show stepRank a.step ≤ stepRank b.step
        rw [h a (by simp), h b (by simp)]
      · intro y hy
        exact h y (by simp [hy])

theorem invS_pp {w w' : W} (h : Pp w w') (hi : InvS w) : InvS w' := by
  obtain ⟨hs, -, ⟨Δ, ht, hΔ⟩, -⟩ := h
  unfold InvS at *
  rw [ht, List.append_assoc, List.chain'_append]
  have hi' := List.chain'_append.mp hi
  refine ⟨hi'.1, ?_, ?_⟩
  · refine chain'_rank_const (n := stepRank w.status.step) ?_
    intro y hy
    rcases List.mem_append.mp hy with hy | hy
    · rw [hΔ y hy]
    · simp only [List.mem_singleton] at hy
      rw [hy, hs]
  · intro x hx y hy
    have hlink := hi'.2.2 x hx w.status (by simp)
    have hrank : stepRank y.step = stepRank w.status.step := by
      have hmem : y ∈ Δ ++ [w'.status] := List.mem_of_mem_head? hy
      rcases List.mem_append.mp hmem with hm | hm
      · rw [hΔ y hm]
      · simp only [List.mem_singleton] at hm
        rw [hm, hs]
    show stepRank x.step ≤ stepRank y.step
    rw [hrank]
    exact hlink

theorem noErr_pp {w w' : W} (h : Pp w w') (hs : w.status.step ≠ .error)
    (hn : NoErr w) : NoErr w' := by
  obtain ⟨-, -, ⟨Δ, ht, hΔ⟩, -⟩ := h
  intro x hx
  rw [ht] at hx
  rcases List.mem_append.mp hx with hx | hx
  · exact hn x hx
  · rw [hΔ x hx]
    exact hs

theorem emitted_pp {w w' : W} (h : Pp w w') {t : Step} (ht : emitted w t) :
    emitted w' t := by
  obtain ⟨-, -, ⟨Δ, hΔ, -⟩, -⟩ := h
  unfold emitted at *
  rw [hΔ]
  simp only [List.map_append, List.mem_append]
  exact Or.inl ht

theorem Reach_init : Reach initW .idle := by
  refine ⟨rfl, ?_, ?_, ?_, rfl⟩
  · unfold InvL initW; simp
  · unfold InvS initW; simp
  · intro x hx; simp [initW] at hx

theorem Reach_pp {w w' : W} {s : Step} (h : Pp w w') (hr : Reach w s)
    (hs : s ≠ .error) : Reach w' s := by
  refine ⟨h.1.trans hr.step_eq, h.2.2.2 hr.invL, invS_pp h hr.invS, ?_, ?_⟩
  · exact noErr_pp h (hr.step_eq ▸ hs) hr.noErr
  · exact h.2.1.trans hr.fproc

theorem Reach_update {w : W} {s : Step} (hr : Reach w s) (s' : Step)
    (m : String) (hle : stepRank s ≤ stepRank s') (hne : s' ≠ .error) :
    Reach (update true w s' m) s' := by
  have hRSstep : RS w.status { w.status with step := s', message := some m } := by
    show stepRank w.status.step ≤ stepRank s'
    rw [hr.step_eq]
    exact hle
  refine ⟨rfl, ?_, ?_, ?_, hr.fproc⟩
  · exact invL_notifyW true List.prefix_rfl hr.invL
  · unfold update
    have hi := hr.invS
    unfold InvS notifyW at *
    simpa using chain'_concat_emit (fun x y z (h1 : RS x y) (h2 : RS y z) => RS_trans h1 h2)
      hi hRSstep (le_refl _)
  · intro x hx
    simp [update, notifyW] at hx
    rcases hx with hx | hx
    · exact hr.noErr x hx
    · rw [hx]
      exact hne

theorem emitted_update (w : W) (s : Step) (m : String) :
    emitted (update true w s m) s := by
  simp [emitted, update, notifyW]

theorem emitted_mono_update {w : W} {t : Step} (s : Step) (m : String)
    (ht : emitted w t) : emitted (update true w s m) t := by
  simp only [emitted, update, notifyW, if_pos, List.map_append, List.mem_append]
  exact Or.inl ht

/-- Emitting one more snapshot of known step preserves / produces the pieces
of the invariant (used for the final `running` emission). -/
theorem invS_notifyW_true {w : W} {st : LaunchStatus}
    (h : RS w.status st) (hi : InvS w) : InvS (notifyW true w st) := by
  unfold InvS notifyW at *
  simpa using chain'_concat_emit (fun x y z (h1 : RS x y) (h2 : RS y z) => RS_trans h1 h2)
    hi h (le_refl _)

theorem noErr_notifyW_true {w : W} {st : LaunchStatus}
    (hs : st.step ≠ .error) (hn : NoErr w) : NoErr (notifyW true w st) := by
  intro x hx
  simp [notifyW] at hx
  rcases hx with hx | hx
  · exact hn x hx
  · rw [hx]
    exact hs

theorem emitted_notifyW_true (w : W) (st : LaunchStatus) :
    emitted (notifyW true w st) st.step := by
  simp [emitted, notifyW]

theorem emitted_mono_notifyW {w : W} {t : Step} (b : Bool) (st : LaunchStatus)
    (ht : emitted w t) : emitted (notifyW b w st) t := by
  unfold emitted notifyW at *
  cases b
  · simpa using ht
  · simp only [if_pos, List.map_append, List.mem_append]
    exact Or.inl ht

theorem Pp_installPeerDep (e : Env) (w : W) : Pp w (installPeerDep e w) := by
  unfold installPeerDep
  dsimp only
  split
  next w2 heq => exact Pp_trans (Pp_log _ _ _) (Pp_of_runEq heq)
  next m w2 heq =>
    exact Pp_trans (Pp_log _ _ _) (Pp_trans (Pp_of_runEqErr heq) (Pp_log _ _ _))

theorem startSpawn_spec (e : Env) (fe : StartCmd) (w : W)
    (hr : Reach w .starting) :
    (startSpawn e fe w).status.step = .running ∧ InvL (startSpawn e fe w) ∧
    InvS (startSpawn e fe w) ∧ NoErr (startSpawn e fe w) ∧
    emitted (startSpawn e fe w) .running ∧
    (∀ t : Step, emitted w t → emitted (startSpawn e fe w) t) := by
  unfold startSpawn
  dsimp only
  set w12 := log true w ("[start] frontend via " ++ fe.label) with hw12
  set w13 : W := { w12 with frontendProc := some e.spawnPid } with hw13
  set w14 := updateServer true w13 .running "서버 실행 중" with hw14
  set w15 := updateClient true w14 .running "클라이언트 실행 중" with hw15
  have hp12 : Pp w w12 := Pp_log _ _ _
  have hp1315 : Pp w13 w15 :=
    Pp_trans (Pp_updateServer _ _ _ _) (Pp_updateClient _ _ _ _)
  have hInvL13 : InvL w13 := hp12.2.2.2 hr.invL
  have hInvS13 : InvS w13 := (invS_pp hp12 hr.invS : InvS w12)
  have hNoErr12 : NoErr w12 := by
    refine noErr_pp hp12 ?_ hr.noErr
    rw [hr.step_eq]
    decide
  have hNoErr13 : NoErr w13 := hNoErr12
  have hstep13 : w13.status.step = Step.starting := hp12.1.trans hr.step_eq
  have hInvL15 : InvL w15 := hp1315.2.2.2 hInvL13
  have hInvS15 : InvS w15 := invS_pp hp1315 hInvS13
  have hNoErr15 : NoErr w15 := by
    refine noErr_pp hp1315 ?_ hNoErr13
    rw [hstep13]
    decide
  have hstep15 : w15.status.step = Step.starting := hp1315.1.trans hstep13
  refine ⟨rfl, ?_, ?_, ?_, ?_, ?_⟩
  · exact invL_notifyW true List.prefix_rfl hInvL15
  · refine invS_notifyW_true ?_ hInvS15
    show stepRank w15.status.step ≤ stepRank Step.running
    rw [hstep15]
    decide
  · refine noErr_notifyW_true ?_ hNoErr15
    show Step.running ≠ Step.error
    decide
  · exact emitted_notifyW_true w15 _
  · intro t ht
    refine emitted_mono_notifyW true _ ?_
    refine emitted_pp hp1315 ?_
    exact emitted_pp hp12 ht

theorem startTail_spec (e : Env) (cfg : RepoConfig) (w : W)
    (hr : Reach w .installing)
    (hct : emitted w .checkingTools) (hpr : emitted w .preparing)
    (hcl : emitted w .cloning) (hin : emitted w .installing) :
    (∀ w', startTail e cfg w = .ok w' →
      w'.status.step = .running ∧ InvL w' ∧ InvS w' ∧ NoErr w' ∧
      emitted w' .checkingTools ∧ emitted w' .preparing ∧
      emitted w' .cloning ∧ emitted w' .installing ∧
      emitted w' .starting ∧ emitted w' .running) ∧
    (∀ m w', startTail e cfg w = .error (m, w') →
      InvL w' ∧ w'.frontendProc = none) := by
  unfold startTail
  dsimp only
  set w10 := update true w .starting "Starting processes..." with hw10
  set w11 := updateClient true w10 .starting "클라이언트를 시작하고 있습니다..." with hw11
  have hr10 : Reach w10 .starting :=
    Reach_update hr .starting _ (by decide) (by decide)
  have hr11 : Reach w11 .starting :=
    Reach_pp (Pp_updateClient _ _ _ _) hr10 (by decide)
  have hst11 : emitted w11 .starting :=
    emitted_pp (Pp_updateClient _ _ _ _) (emitted_update w .starting _)
  have hct11 : emitted w11 .checkingTools :=
    emitted_pp (Pp_updateClient _ _ _ _) (emitted_mono_update _ _ hct)
  have hpr11 : emitted w11 .preparing :=
    emitted_pp (Pp_updateClient _ _ _ _) (emitted_mono_update _ _ hpr)
  have hcl11 : emitted w11 .cloning :=
    emitted_pp (Pp_updateClient _ _ _ _) (emitted_mono_update _ _ hcl)
  have hin11 : emitted w11 .installing :=
    emitted_pp (Pp_updateClient _ _ _ _) (emitted_mono_update _ _ hin)
  cases hR : resolveStartCommand e cfg.frontend.startCommand with
  | error m =>
    constructor
    · intro w' h
      exact absurd h (by simp)
    · intro m' w' h
      have h2 : (m, w11) = (m', w') := by injection h
      rw [Prod.mk.injEq] at h2
      obtain ⟨rfl, rfl⟩ := h2
      exact ⟨hr11.invL, hr11.fproc⟩
  | ok fe =>
    constructor
    · intro w' h
      have h2 : startSpawn e fe w11 = w' := by injection h
      subst h2
      obtain ⟨hs, hl, hv, hn, hrun, hmono⟩ := startSpawn_spec e fe w11 hr11
      exact ⟨hs, hl, hv, hn, hmono _ hct11, hmono _ hpr11, hmono _ hcl11,
        hmono _ hin11, hmono _ hst11, hrun⟩
    · intro m' w' h
      exact absurd h (by simp)

/-- The master walk: success and failure facts about `startBody` from a fresh
orchestrator state. -/
theorem startBody_spec (e : Env) (cfg : RepoConfig) :
    (∀ w', startBody e cfg initW = .ok w' →
      w'.status.step = .running ∧ InvL w' ∧ InvS w' ∧ NoErr w' ∧
      emitted w' .checkingTools ∧ emitted w' .preparing ∧
      emitted w' .cloning ∧ emitted w' .installing ∧
      emitted w' .starting ∧ emitted w' .running) ∧
    (∀ m w', startBody e cfg initW = .error (m, w') →
      InvL w' ∧ w'.frontendProc = none) := by
  unfold startBody
  dsimp only
  set w1 := (if e.rootEnvExists then
      log true initW "[env] Loaded root .env file into process environment."
    else initW) with hw1
  have hr1 : Reach w1 .idle := by
    rw [hw1]
    by_cases h : e.rootEnvExists
    · rw [if_pos h]
      exact Reach_pp (Pp_log _ _ _) Reach_init (by decide)
    · rw [if_neg h]
      exact Reach_init
  set w2 := update true w1 .checkingTools "Checking git and npm..." with hw2
  have hr2 : Reach w2 .checkingTools :=
    Reach_update hr1 .checkingTools _ (by decide) (by decide)
  have hct2 : emitted w2 .checkingTools := emitted_update w1 .checkingTools _
  cases hT : ensureTools e w2 with
  | error x =>
    dsimp only
    have hp := Pp_ensureTools e w2
    rw [hT] at hp
    simp only [stOf] at hp
    constructor
    · intro w' h
      exact absurd h (by simp)
    · intro m w' h
      have h2 : x = (m, w') := by injection h
      subst h2
      exact ⟨hp.2.2.2 hr2.invL, hp.2.1.trans hr2.fproc⟩
  | ok w3 =>
    dsimp only
    have hp3 := Pp_ensureTools e w2
    rw [hT] at hp3
    simp only [stOf] at hp3
    have hr3 : Reach w3 .checkingTools := Reach_pp hp3 hr2 (by decide)
    have hct3 : emitted w3 .checkingTools := emitted_pp hp3 hct2
    set w4 := update true w3 .preparing "Preparing workspace..." with hw4
    have hr4 : Reach w4 .preparing :=
      Reach_update hr3 .preparing _ (by decide) (by decide)
    have hct4 : emitted w4 .checkingTools := emitted_mono_update _ _ hct3
    have hpr4 : emitted w4 .preparing := emitted_update w3 .preparing _
    cases hW : ensureWorkspace e w4 with
    | error x =>
      dsimp only
      have hp := Pp_ensureWorkspace e w4
      rw [hW] at hp
      simp only [stOf] at hp
      constructor
      · intro w' h
        exact absurd h (by simp)
      · intro m w' h
        have h2 : x = (m, w') := by injection h
        subst h2
        exact ⟨hp.2.2.2 hr4.invL, hp.2.1.trans hr4.fproc⟩
    | ok w5 =>
      dsimp only
      have hp5 := Pp_ensureWorkspace e w4
      rw [hW] at hp5
      simp only [stOf] at hp5
      have hr5 : Reach w5 .preparing := Reach_pp hp5 hr4 (by decide)
      have hct5 : emitted w5 .checkingTools := emitted_pp hp5 hct4
      have hpr5 : emitted w5 .preparing := emitted_pp hp5 hpr4
      set w6 := update true w5 .cloning "Syncing repositories..." with hw6
      have hr6 : Reach w6 .cloning :=
        Reach_update hr5 .cloning _ (by decide) (by decide)
      have hct6 : emitted w6 .checkingTools := emitted_mono_update _ _ hct5
      have hpr6 : emitted w6 .preparing := emitted_mono_update _ _ hpr5
      have hcl6 : emitted w6 .cloning := emitted_update w5 .cloning _
      cases hG : cloneOrPull true e.frontHasGit cfg.frontend.url
          cfg.frontend.branch "frontend" e.gitExec w6 with
      | error x =>
        dsimp only
        have hp := Pp_cloneOrPull true e.frontHasGit cfg.frontend.url
          cfg.frontend.branch "frontend" e.gitExec w6
        rw [hG] at hp
        simp only [stOf] at hp
        constructor
        · intro w' h
          exact absurd h (by simp)
        · intro m w' h
          have h2 : x = (m, w') := by injection h
          subst h2
          exact ⟨hp.2.2.2 hr6.invL, hp.2.1.trans hr6.fproc⟩
      | ok w7 =>
        dsimp only
        have hp7 := Pp_cloneOrPull true e.frontHasGit cfg.frontend.url
          cfg.frontend.branch "frontend" e.gitExec w6
        rw [hG] at hp7
        simp only [stOf] at hp7
        have hr7 : Reach w7 .cloning := Reach_pp hp7 hr6 (by decide)
        have hct7 : emitted w7 .checkingTools := emitted_pp hp7 hct6
        have hpr7 : emitted w7 .preparing := emitted_pp hp7 hpr6
        have hcl7 : emitted w7 .cloning := emitted_pp hp7 hcl6
        cases hE : createFrontendEnvFiles e true w7 with
        | error x =>
          dsimp only
          have hp := Pp_createFrontendEnvFiles e true w7
          rw [hE] at hp
          simp only [stOf] at hp
          constructor
          · intro w' h
            exact absurd h (by simp)
          · intro m w' h
            have h2 : x = (m, w') := by injection h
            subst h2
            exact ⟨hp.2.2.2 hr7.invL, hp.2.1.trans hr7.fproc⟩
        | ok w8 =>
          dsimp only
          have hp8 := Pp_createFrontendEnvFiles e true w7
          rw [hE] at hp8
          simp only [stOf] at hp8
          have hr8 : Reach w8 .cloning := Reach_pp hp8 hr7 (by decide)
          have hct8 : emitted w8 .checkingTools := emitted_pp hp8 hct7
          have hpr8 : emitted w8 .preparing := emitted_pp hp8 hpr7
          have hcl8 : emitted w8 .cloning := emitted_pp hp8 hcl7
          set w9 := update true w8 .installing "Installing frontend dependencies..." with hw9
          have hr9 : Reach w9 .installing :=
            Reach_update hr8 .installing _ (by decide) (by decide)
          have hct9 : emitted w9 .checkingTools := emitted_mono_update _ _ hct8
          have hpr9 : emitted w9 .preparing := emitted_mono_update _ _ hpr8
          have hcl9 : emitted w9 .cloning := emitted_mono_update _ _ hcl8
          have hin9 : emitted w9 .installing := emitted_update w8 .installing _
          cases hI : installDeps e cfg.frontend.installCommand true w9 with
          | error x =>
            dsimp only
            have hp := Pp_installDeps e cfg.frontend.installCommand true w9
            rw [hI] at hp
            simp only [stOf] at hp
            constructor
            · intro w' h
              exact absurd h (by simp)
            · intro m w' h
              have h2 : x = (m, w') := by injection h
              subst h2
              exact ⟨hp.2.2.2 hr9.invL, hp.2.1.trans hr9.fproc⟩
          | ok wA =>
            dsimp only
            have hpA := Pp_installDeps e cfg.frontend.installCommand true w9
            rw [hI] at hpA
            simp only [stOf] at hpA
            have hrA : Reach wA .installing := Reach_pp hpA hr9 (by decide)
            have hctA : emitted wA .checkingTools := emitted_pp hpA hct9
            have hprA : emitted wA .preparing := emitted_pp hpA hpr9
            have hclA : emitted wA .cloning := emitted_pp hpA hcl9
            have hinA : emitted wA .installing := emitted_pp hpA hin9
            have hpP := Pp_installPeerDep e wA
            have hrB : Reach (installPeerDep e wA) .installing :=
              Reach_pp hpP hrA (by decide)
            exact startTail_spec e cfg (installPeerDep e wA) hrB
              (emitted_pp hpP hctA) (emitted_pp hpP hprA)
              (emitted_pp hpP hclA) (emitted_pp hpP hinA)

/-- C1: across a single successful run of `start(config)`, the sequence of
top-level `step` values emitted to the subscriber is a monotone
(never-regressing) walk through the fixed ordering
`idle, checking-tools, preparing, cloning, installing, starting, running`
(repeats only as consecutive identical emissions), `error` is never emitted,
every milestone step from `checking-tools` to `running` is emitted, and the
run ends with `step = running`. -/
theorem start_success_step_monotone (e : Env) (cfg : RepoConfig)
    (h : ((start e cfg initW).1).1 = true) :
    List.Chain' (fun a b : Step => stepRank a ≤ stepRank b)
      (((start e cfg initW).2).trace.map (fun st => st.step)) ∧
    Step.error ∉ (((start e cfg initW).2).trace.map (fun st => st.step)) ∧
    ((start e cfg initW).2).status.step = .running ∧
    (∀ s ∈ [Step.checkingTools, Step.preparing, Step.cloning, Step.installing,
        Step.starting, Step.running],
      s ∈ (((start e cfg initW).2).trace.map (fun st => st.step))) := by
  have hs := startBody_spec e cfg
  unfold start at h ⊢
  cases hB : startBody e cfg initW with
  | error p =>
    obtain ⟨m, w2⟩ := p
    rw [hB] at h
    simp at h
  | ok w' =>
    rw [hB] at h
    dsimp only
    obtain ⟨hstep, hInvL, hInvS, hNoErr, hct, hpr, hcl, hin, hst, hrun⟩ :=
      hs.1 w' hB
    refine ⟨?_, ?_, hstep, ?_⟩
    · have h1 : List.Chain' RS w'.trace := (List.chain'_append.mp hInvS).1
      exact (List.chain'_map (fun st : LaunchStatus => st.step)).mpr h1
    · intro hmem
      rw [List.mem_map] at hmem
      obtain ⟨st, hst2, he⟩ := hmem
      exact hNoErr st hst2 he
    · intro s hsmem
      simp only [List.mem_cons, List.not_mem_nil, or_false] at hsmem
      rcases hsmem with rfl | rfl | rfl | rfl | rfl | rfl
      · exact hct
      · exact hpr
      · exact hcl
      · exact hin
      · exact hst
      · exact hrun

/-- C1 witness: on an all-success oracle the theorem's conclusion holds with
its hypothesis discharged at the concrete input. -/
theorem start_success_step_monotone_witness :
    List.Chain' (fun a b : Step => stepRank a ≤ stepRank b)
      (((start e0 cfg0 initW).2).trace.map (fun st => st.step)) ∧
    Step.error ∉ (((start e0 cfg0 initW).2).trace.map (fun st => st.step)) ∧
    ((start e0 cfg0 initW).2).status.step = .running ∧
    (∀ s ∈ [Step.checkingTools, Step.preparing, Step.cloning, Step.installing,
        Step.starting, Step.running],
      s ∈ (((start e0 cfg0 initW).2).trace.map (fun st => st.step))) :=
  start_success_step_monotone e0 cfg0 (by decide)

/-- C2: whenever `start` does not succeed, it has caught the failing step's
error: the status ends at `step = 'error'`, the returned `error` field equals
the stored non-empty `message`, and the frontend process was never spawned
(the process handle field is still `null`). -/
theorem start_failure_spec (e : Env) (cfg : RepoConfig)
    (h : ((start e cfg initW).1).1 = false) :
    ((start e cfg initW).2).status.step = .error ∧
    ((start e cfg initW).1).2 = ((start e cfg initW).2).status.message ∧
    (∃ m, ((start e cfg initW).2).status.message = some m ∧ m ≠ "") ∧
    ((start e cfg initW).2).frontendProc = none := by
  have hs := (startBody_spec e cfg).2
  unfold start at h ⊢
  cases hB : startBody e cfg initW with
  | ok w' =>
    rw [hB] at h
    simp at h
  | error p =>
    obtain ⟨m, w2⟩ := p
    obtain ⟨hL, hF⟩ := hs m w2 hB
    rw [hB] at h
    dsimp only
    refine ⟨rfl, rfl, ⟨(if m = "" then "Error" else m), rfl, ?_⟩, hF⟩
    by_cases hm : m = ""
    · rw [if_pos hm]
      decide
    · rw [if_neg hm]
      exact hm

/-- C2 witness: a run whose dependency install exits with code 1 ends in an
error status with a non-empty message and no spawned frontend process. -/
theorem start_failure_spec_witness :
    ((start e1 cfg0 initW).2).status.step = .error ∧
    ((start e1 cfg0 initW).1).2 = ((start e1 cfg0 initW).2).status.message ∧
    (∃ m, ((start e1 cfg0 initW).2).status.message = some m ∧ m ≠ "") ∧
    ((start e1 cfg0 initW).2).frontendProc = none :=
  start_failure_spec e1 cfg0 (by decide)

/-- C7: during a run (successful or not), the emitted status snapshots carry
an append-only logs list: each previously emitted logs list is a prefix of
the next one. -/
theorem start_logs_append_only (e : Env) (cfg : RepoConfig) :
    List.Chain' (fun a b : LaunchStatus => a.logs <+: b.logs)
      (((start e cfg initW).2).trace) := by
  have hs := startBody_spec e cfg
  unfold start
  cases hB : startBody e cfg initW with
  | ok w' =>
    dsimp only
    have hL := (hs.1 w' hB).2.1
    exact (List.chain'_append.mp hL).1
  | error p =>
    obtain ⟨m, w2⟩ := p
    dsimp only
    have hL := (hs.2 m w2 hB).1
    have hL2 : InvL (update true w2 .error (if m = "" then "Error" else m)) :=
      invL_notifyW true List.prefix_rfl hL
    exact (List.chain'_append.mp hL2).1

theorem execCalls_log (b : Bool) (w : W) (l : String) :
    (log b w l).execCalls = w.execCalls := rfl

theorem execCalls_streamLogs (b : Bool) (lines : List (Bool × String)) :
    ∀ w : W, (streamLogs b lines w).execCalls = w.execCalls := by
  induction lines with
  | nil => intro w; rfl
  | cons p rest ih =>
    intro w
    rw [streamLogs_cons, ih, execCalls_log]

theorem execCalls_execStream (b : Bool) (cmd : String) (args : List String)
    (dir : String) (r : ExecResult) (w : W) :
    (stOfF (execStream b cmd args dir r w)).execCalls
      = w.execCalls ++ [(cmd, args, dir)] := by
  unfold execStream
  cases hs : r.spawnErr with
  | some e => simp [stOfF, log, notifyW]
  | none =>
    by_cases hc : r.exitCode = some 0
    · simp [if_pos hc, stOfF, execCalls_streamLogs, log, notifyW]
    · simp only [if_neg hc]
      by_cases hl : r.lines = []
      · simp [if_pos hl, stOfF, execCalls_streamLogs, log, notifyW]
      · simp [if_neg hl, stOfF, execCalls_streamLogs, log, notifyW]

theorem execCalls_execStreamRun (b : Bool) (cmd : String) (args : List String)
    (dir : String) (r : ExecResult) (w : W) :
    (stOf (execStreamRun b cmd args dir r w)).execCalls
      = w.execCalls ++ [(cmd, args, dir)] := by
  rw [stOf_execStreamRun]
  exact execCalls_execStream b cmd args dir r w

/-- C3: `cloneOrPull` runs `git pull` in the target directory when
`targetDir/.git` exists (and never a clone), and otherwise runs
`git clone <url> .` in the target directory itself, with `-b <branch>`
spliced in exactly when a branch is given.  In particular a second call that
sees `.git` performs a pull regardless of the directory contents. -/
theorem cloneOrPull_spec (notif hasGit : Bool) (url : String)
    (branch : Option String) (dir : String) (r : ExecResult) (w : W) :
    (hasGit = true →
      (stOf (cloneOrPull notif hasGit url branch dir r w)).execCalls
        = w.execCalls ++ [("git", ["pull"], dir)]) ∧
    (hasGit = false → branch = none →
      (stOf (cloneOrPull notif hasGit url branch dir r w)).execCalls
        = w.execCalls ++ [("git", ["clone", url, "."], dir)]) ∧
    (hasGit = false → ∀ b2, branch = some b2 →
      (stOf (cloneOrPull notif hasGit url branch dir r w)).execCalls
        = w.execCalls ++ [("git", ["clone", "-b", b2, url, "."], dir)]) := by
  refine ⟨?_, ?_, ?_⟩
  · intro hg
    subst hg
    unfold cloneOrPull
    rw [if_pos rfl, execCalls_execStreamRun, execCalls_log]
  · intro hg hb
    subst hg
    subst hb
    unfold cloneOrPull
    simp only [Bool.false_eq_true, if_false]
    rw [execCalls_execStreamRun, execCalls_log]
  · intro hg b2 hb
    subst hg
    subst hb
    unfold cloneOrPull
    simp only [Bool.false_eq_true, if_false]
    rw [execCalls_execStreamRun, execCalls_log]
    rfl

/-- C3 witness: a pull when `.git` exists, and a branch-qualified clone into
`.` when it does not, at concrete inputs. -/
theorem cloneOrPull_spec_witness :
    (stOf (cloneOrPull true true "https://example.com/app.git" (some "main")
        "frontend" {} initW)).execCalls
      = initW.execCalls ++ [("git", ["pull"], "frontend")] ∧
    (stOf (cloneOrPull true false "https://example.com/app.git" (some "main")
        "frontend" {} initW)).execCalls
      = initW.execCalls
        ++ [("git", ["clone", "-b", "main", "https://example.com/app.git", "."],
          "frontend")] :=
  ⟨(cloneOrPull_spec true true "https://example.com/app.git" (some "main")
      "frontend" {} initW).1 rfl,
   (cloneOrPull_spec true false "https://example.com/app.git" (some "main")
      "frontend" {} initW).2.2 rfl "main" rfl⟩

/-- C5: after `stop()` the status record is exactly `{ step: 'idle', logs: [] }`
(message, pids and sub-statuses cleared, logs empty), both tracked process
handles are null, and nothing is emitted. -/
theorem stop_spec (w : W) :
    (stop w).status = { step := Step.idle, logs := [] } ∧
    (stop w).status.message = none ∧ (stop w).status.serverPid = none ∧
    (stop w).status.frontendPid = none ∧ (stop w).status.server = none ∧
    (stop w).status.client = none ∧
    (stop w).frontendProc = none ∧ (stop w).serverProc = none ∧
    (stop w).trace = w.trace :=
  ⟨rfl, rfl, rfl, rfl, rfl, rfl, rfl, rfl, rfl⟩

theorem logs_log (b : Bool) (w : W) (l : String) :
    (log b w l).status.logs = w.status.logs ++ [l] := rfl

theorem logs_streamLogs (b : Bool) (lines : List (Bool × String)) :
    ∀ w : W, (streamLogs b lines w).status.logs
      = w.status.logs ++ lines.map tagLine := by
  induction lines with
  | nil => intro w; simp [streamLogs]
  | cons p rest ih =>
    intro w
    rw [streamLogs_cons, ih, logs_log]
    simp

/-- C6: `execStream` logs the full invocation before any output line, its
promise resolves exactly when the child exits with code 0, a non-zero exit
rejects with a failure carrying the exit code and the most recent
keyword-bearing stderr lines, and a spawn failure rejects with the spawn
error. -/
theorem execStream_spec (b : Bool) (cmd : String) (args : List String)
    (dir : String) (r : ExecResult) (w : W) :
    (∃ rest, (stOfF (execStream b cmd args dir r w)).status.logs
        = w.status.logs ++ invocLine cmd args dir :: rest) ∧
    ((∃ w2, execStream b cmd args dir r w = .ok w2) ↔
      (r.spawnErr = none ∧ r.exitCode = some 0)) ∧
    (∀ em, r.spawnErr = some em →
      ∃ w2, execStream b cmd args dir r w = .error (.spawnFail em, w2)) ∧
    (r.spawnErr = none → r.exitCode ≠ some 0 →
      ∃ w2, execStream b cmd args dir r w
        = .error (.exitFail cmd r.exitCode r.signal
            (lastN 3 (errLines r.lines)), w2)) := by
  refine ⟨?_, ⟨?_, ?_⟩, ?_, ?_⟩
  · unfold execStream
    cases hs : r.spawnErr with
    | some e =>
      exact ⟨["[exec] Process error: " ++ e], by simp [stOfF, logs_log]⟩
    | none =>
      dsimp only
      by_cases hc : r.exitCode = some 0
      · rw [if_pos hc]
        exact ⟨r.lines.map tagLine,
          by simp [stOfF, logs_streamLogs, logs_log]⟩
      · rw [if_neg hc]
        by_cases hl : r.lines = []
        · rw [if_pos hl]
          refine ⟨r.lines.map tagLine
            ++ ["[exec] No output from command - possible permission or path issue",
              "[exec] ❌ " ++ cmd ++ " failed (code=" ++ showCode r.exitCode
                ++ ", signal=" ++ showSig r.signal ++ ")",
              "[exec] " ++ mkSummary (lastN 3 (errLines r.lines))], ?_⟩
          simp [stOfF, logs_log, logs_streamLogs]
        · rw [if_neg hl]
          refine ⟨r.lines.map tagLine
            ++ ["[exec] ❌ " ++ cmd ++ " failed (code=" ++ showCode r.exitCode
                ++ ", signal=" ++ showSig r.signal ++ ")",
              "[exec] " ++ mkSummary (lastN 3 (errLines r.lines))], ?_⟩
          simp [stOfF, logs_log, logs_streamLogs]
  · rintro ⟨w2, h2⟩
    unfold execStream at h2
    cases hs : r.spawnErr with
    | some e =>
      rw [hs] at h2
      simp at h2
    | none =>
      rw [hs] at h2
      dsimp only at h2
      by_cases hc : r.exitCode = some 0
      · exact ⟨rfl, hc⟩
      · rw [if_neg hc] at h2
        simp at h2
  · rintro ⟨hs, hc⟩
    unfold execStream
    rw [hs]
    dsimp only
    rw [if_pos hc]
    exact ⟨_, rfl⟩
  · intro em hs
    unfold execStream
    rw [hs]
    exact ⟨_, rfl⟩
  · intro hs hc
    unfold execStream
    rw [hs]
    dsimp only
    rw [if_neg hc]
    exact ⟨_, rfl⟩

/-- C6 witness: a concrete non-zero exit with one keyword-bearing stderr
line rejects with that exit code and that retained line. -/
theorem execStream_spec_witness :
    ∃ w2, execStream true "npm" ["ci"] "frontend"
        { lines := [(true, "npm ERR! build failed")], exitCode := some 1 } initW
      = .error (.exitFail "npm" (some 1) none ["npm ERR! build failed"], w2) := by
  have h := (execStream_spec true "npm" ["ci"] "frontend"
      { lines := [(true, "npm ERR! build failed")], exitCode := some 1 }
      initW).2.2.2 rfl (by decide)
  dsimp only at h
  have h2 : lastN 3 (errLines [(true, "npm ERR! build failed")])
      = ["npm ERR! build failed"] := rfl
  rw [h2] at h
  exact h

/-- C8: `createDatabaseIfNeeded` throws the fatal remediation error (naming
the `mysql` command and PATH) exactly when the spawn failure message contains
`ENOENT`; every other failure — any other spawn error or a non-zero exit —
is logged and the function returns normally. -/
theorem createDatabaseIfNeeded_spec (b : Bool) (dbName : String)
    (r : ExecResult) (w : W) :
    (∀ em, r.spawnErr = some em →
      (includesL "ENOENT".toList em.toList = true →
        createDatabaseIfNeeded b dbName r w = .error (mysqlMissingMsg, w)) ∧
      (includesL "ENOENT".toList em.toList = false →
        createDatabaseIfNeeded b dbName r w
          = .ok (log b w ("[mysql] DB 생성 실패: " ++ em)))) ∧
    (r.spawnErr = none → ∃ w2, createDatabaseIfNeeded b dbName r w = .ok w2) ∧
    includesL "mysql".toList mysqlMissingMsg.toList = true ∧
    includesL "PATH".toList mysqlMissingMsg.toList = true := by
  refine ⟨?_, ?_, by decide, by decide⟩
  · intro em hs
    constructor
    · intro hinc
      unfold createDatabaseIfNeeded
      rw [hs]
      simp only [hinc, if_true]
    · intro hinc
      unfold createDatabaseIfNeeded
      rw [hs]
      simp only [hinc]
      rfl
  · intro hs
    unfold createDatabaseIfNeeded
    rw [hs]
    by_cases hc : r.exitCode = some 0
    · rw [if_pos hc]
      exact ⟨_, rfl⟩
    · rw [if_neg hc]
      exact ⟨_, rfl⟩

set_option maxRecDepth 8000 in
/-- C8 witness: an `ENOENT` spawn failure aborts with the remediation
message; a non-zero exit returns normally. -/
theorem createDatabaseIfNeeded_spec_witness :
    createDatabaseIfNeeded true "mozu" { spawnErr := some "spawn mysql ENOENT" }
        initW = .error (mysqlMissingMsg, initW) ∧
    (∃ w2, createDatabaseIfNeeded true "mozu" { exitCode := some 1 } initW
      = .ok w2) :=
  ⟨((createDatabaseIfNeeded_spec true "mozu"
        { spawnErr := some "spawn mysql ENOENT" } initW).1
      "spawn mysql ENOENT" rfl).1 (by decide),
   (createDatabaseIfNeeded_spec true "mozu" { exitCode := some 1 } initW).2.1
     rfl⟩

/-- C9: the frontend exit handler logs the exit code and signal and replaces
only the `client` sub-status — `error` on a non-zero (or null) exit code,
`idle` on code 0 — leaving the overall `step`, `message`, pid fields and the
`server` sub-status unchanged. -/
theorem frontendOnExit_spec (b : Bool) (code : Option Int)
    (signal : Option String) (w : W) :
    (frontendOnExit b code signal w).status.step = w.status.step ∧
    (frontendOnExit b code signal w).status.message = w.status.message ∧
    (frontendOnExit b code signal w).status.serverPid = w.status.serverPid ∧
    (frontendOnExit b code signal w).status.frontendPid
      = w.status.frontendPid ∧
    (frontendOnExit b code signal w).status.server = w.status.server ∧
    (frontendOnExit b code signal w).status.logs
      = w.status.logs ++ ["[frontend] exited (code=" ++ showCode code
          ++ ", signal=" ++ showSig signal ++ ")"] ∧
    (code ≠ some 0 →
      (frontendOnExit b code signal w).status.client
        = some ⟨.error, some "클라이언트가 예상치 못하게 종료되었습니다"⟩) ∧
    (code = some 0 →
      (frontendOnExit b code signal w).status.client
        = some ⟨.idle, some "클라이언트 종료됨"⟩) := by
  unfold frontendOnExit
  by_cases hc : code = some 0
  · rw [if_neg (by simp [hc])]
    refine ⟨rfl, rfl, rfl, rfl, rfl, rfl, ?_, ?_⟩
    · intro h
      exact absurd hc h
    · intro _
      rfl
  · rw [if_pos hc]
    refine ⟨rfl, rfl, rfl, rfl, rfl, rfl, ?_, ?_⟩
    · intro _
      rfl
    · intro h
      exact absurd h hc

/-- C9 witness: a post-`running` exit with code 137 keeps `step = running`
and downgrades only `client.step` to `error`. -/
theorem frontendOnExit_spec_witness :
    (frontendOnExit true (some 137) (some "SIGKILL") wRun).status.step
      = wRun.status.step ∧
    wRun.status.step = Step.running ∧
    (frontendOnExit true (some 137) (some "SIGKILL") wRun).status.client
      = some ⟨.error, some "클라이언트가 예상치 못하게 종료되었습니다"⟩ :=
  ⟨(frontendOnExit_spec true (some 137) (some "SIGKILL") wRun).1, rfl,
   (frontendOnExit_spec true (some 137) (some "SIGKILL") wRun).2.2.2.2.2.2.1
     (by decide)⟩

theorem noEdgeSpace_head {l : Str} (h : noEdgeSpace l = true) :
    ∀ c, l.head? = some c → isJsSpace c = false := by
  intro c hc
  unfold noEdgeSpace at h
  rw [hc] at h
  dsimp only at h
  rw [Bool.and_eq_true] at h
  simpa using h.1

theorem noEdgeSpace_last {l : Str} (h : noEdgeSpace l = true) :
    ∀ c, l.getLast? = some c → isJsSpace c = false := by
  intro c hc
  unfold noEdgeSpace at h
  rw [hc] at h
  dsimp only at h
  rw [Bool.and_eq_true] at h
  simpa using h.2

theorem splitRN_cons_ne (c : Char) (cs : Str) (h1 : c ≠ '\n') (h2 : c ≠ '\r') :
    splitRN (c :: cs) = (match splitRN cs with
      | [] => [[c]]
      | l :: ls => (c :: l) :: ls) := by
  rw [splitRN.eq_def]
  split
  case h_1 heq => exact absurd heq (by simp)
  case h_2 rest heq =>
    have hc : c = '\r' := by injection heq
    exact absurd hc h2
  case h_3 rest heq =>
    have hc : c = '\n' := by injection heq
    exact absurd hc h1
  case h_4 x c2 rest hn1 hn2 heq =>
    injection heq with hc hcs
    subst hc
    subst hcs
    rfl

theorem splitRN_append : ∀ (l t : Str), '\n' ∉ l → '\r' ∉ l →
    splitRN (l ++ '\n' :: t) = l :: splitRN t := by
  intro l
  induction l with
  | nil =>
    intro t h1 h2
    rfl
  | cons c cs ih =>
    intro t h1 h2
    have hc1 : c ≠ '\n' := by
      intro h
      subst h
      exact h1 (List.mem_cons_self _ _)
    have hc2 : c ≠ '\r' := by
      intro h
      subst h
      exact h2 (List.mem_cons_self _ _)
    have h1' : '\n' ∉ cs := fun h => h1 (List.mem_cons_of_mem c h)
    have h2' : '\r' ∉ cs := fun h => h2 (List.mem_cons_of_mem c h)
    rw [List.cons_append, splitRN_cons_ne c _ hc1 hc2, ih t h1' h2']

theorem splitRN_single : ∀ (l : Str), '\n' ∉ l → '\r' ∉ l →
    splitRN l = [l] := by
  intro l
  induction l with
  | nil =>
    intro _ _
    rfl
  | cons c cs ih =>
    intro h1 h2
    have hc1 : c ≠ '\n' := by
      intro h
      subst h
      exact h1 (List.mem_cons_self _ _)
    have hc2 : c ≠ '\r' := by
      intro h
      subst h
      exact h2 (List.mem_cons_self _ _)
    rw [splitRN_cons_ne c _ hc1 hc2,
      ih (fun h => h1 (List.mem_cons_of_mem c h))
        (fun h => h2 (List.mem_cons_of_mem c h))]

theorem dropWhile_eq_self_of_head {l : Str}
    (h : ∀ c, l.head? = some c → isJsSpace c = false) :
    l.dropWhile isJsSpace = l := by
  cases l with
  | nil => rfl
  | cons a t => simp [List.dropWhile_cons, h a rfl]

theorem trimL_eq_self {l : Str}
    (h1 : ∀ c, l.head? = some c → isJsSpace c = false)
    (h2 : ∀ c, l.getLast? = some c → isJsSpace c = false) :
    trimL l = l := by
  unfold trimL
  rw [dropWhile_eq_self_of_head h1]
  rw [dropWhile_eq_self_of_head
    (fun c hc => h2 c (by rwa [List.head?_reverse] at hc))]
  exact List.reverse_reverse l

theorem parseLine_blank (out : List (Str × Str)) : parseLine out [] = out := rfl

theorem findIdx_entry : ∀ (k : Str) (i : Nat) (rest : Str), '=' ∉ k →
    (k ++ '=' :: rest).findIdx? (fun c => c = '=') i = some (i + k.length) := by
  intro k
  induction k with
  | nil =>
    intro i rest h
    simp
  | cons a t ih =>
    intro i rest h
    have ha : a ≠ '=' := by
      intro hh
      subst hh
      exact h (List.mem_cons_self _ _)
    rw [List.cons_append, List.findIdx?_cons]
    rw [if_neg (by simpa using ha)]
    rw [ih (i + 1) rest (fun hh => h (List.mem_cons_of_mem a hh))]
    congr 1
    simp
    omega

theorem jsonEscapeChar_id {c : Char} (h1 : c ≠ '"') (h2 : c ≠ '\\')
    (h3 : 32 ≤ c.toNat) : jsonEscapeChar c = [c] := by
  have hn : c ≠ '\n' := by
    intro h
    subst h
    exact absurd h3 (by decide)
  have hr : c ≠ '\r' := by
    intro h
    subst h
    exact absurd h3 (by decide)
  have ht : c ≠ '\t' := by
    intro h
    subst h
    exact absurd h3 (by decide)
  have hb : c ≠ '\x08' := by
    intro h
    subst h
    exact absurd h3 (by decide)
  have hf : c ≠ '\x0c' := by
    intro h
    subst h
    exact absurd h3 (by decide)
  have hlt : ¬ c.toNat < 32 := by omega
  unfold jsonEscapeChar
  rw [if_neg h1, if_neg h2, if_neg hn, if_neg hr, if_neg ht, if_neg hb,
    if_neg hf, if_neg hlt]

theorem goodVal_tail {c : Char} {t : Str} (h : goodVal (c :: t)) : goodVal t := by
  obtain ⟨h1, h2, h3⟩ := h
  exact ⟨fun hm => h1 (List.mem_cons_of_mem c hm),
    fun hm => h2 (List.mem_cons_of_mem c hm),
    fun d hd => h3 d (List.mem_cons_of_mem c hd)⟩

theorem jsonEscape_id {v : Str} (hv : goodVal v) :
    (v.map jsonEscapeChar).flatten = v := by
  induction v with
  | nil => rfl
  | cons c t ih =>
    obtain ⟨h1, h2, h3⟩ := hv
    have hc1 : c ≠ '"' := by
      intro h
      subst h
      exact h1 (List.mem_cons_self _ _)
    have hc2 : c ≠ '\\' := by
      intro h
      subst h
      exact h2 (List.mem_cons_self _ _)
    rw [List.map_cons, List.flatten_cons,
      jsonEscapeChar_id hc1 hc2 (h3 c (List.mem_cons_self _ _)),
      ih (goodVal_tail ⟨h1, h2, h3⟩)]
    rfl

theorem encodeVal_eq {v : Str} (hv : goodVal v) :
    encodeVal v = if needsQuote v then '"' :: v ++ ['"'] else v := by
  unfold encodeVal jsonQuote
  by_cases hq : needsQuote v
  · rw [if_pos hq, if_pos hq, jsonEscape_id hv]
  · rw [if_neg hq, if_neg hq]

theorem not_needsQuote_facts {v : Str} (h : needsQuote v = false) :
    ∀ c ∈ v, isJsSpace c = false ∧ c ≠ '#' ∧ c ≠ '\'' ∧ c ≠ '"' ∧ c ≠ '`' := by
  intro c hc
  unfold needsQuote at h
  rw [List.any_eq_false] at h
  have h2 := h c hc
  refine ⟨?_, ?_, ?_, ?_, ?_⟩
  · cases hb : isJsSpace c
    · rfl
    · exact absurd (by simp [hb]) h2
  · intro he
    exact h2 (by simp [he])
  · intro he
    exact h2 (by simp [he])
  · intro he
    exact h2 (by simp [he])
  · intro he
    exact h2 (by simp [he])

theorem char_ge32_ne_nl {c : Char} (h : 32 ≤ c.toNat) : c ≠ '\n' ∧ c ≠ '\r' := by
  constructor
  · intro hh
    subst hh
    exact absurd h (by decide)
  · intro hh
    subst hh
    exact absurd h (by decide)

/-- The serialised entry line contains no line-break characters. -/
theorem entry_no_break {k v : Str} (hk : goodKey k) (hv : goodVal v) :
    '\n' ∉ entryLine (k, v) ∧ '\r' ∉ entryLine (k, v) := by
  obtain ⟨-, -, hkN, hkR, -⟩ := hk
  have henc : '\n' ∉ encodeVal v ∧ '\r' ∉ encodeVal v := by
    rw [encodeVal_eq hv]
    by_cases hq : needsQuote v
    · rw [if_pos hq]
      constructor
      · intro hm
        rcases List.mem_cons.mp hm with hm | hm
        · exact absurd hm.symm (by decide)
        · rcases List.mem_append.mp hm with hm | hm
          · exact absurd rfl (char_ge32_ne_nl (hv.2.2 _ hm)).1
          · simp at hm
      · intro hm
        rcases List.mem_cons.mp hm with hm | hm
        · exact absurd hm.symm (by decide)
        · rcases List.mem_append.mp hm with hm | hm
          · exact absurd rfl (char_ge32_ne_nl (hv.2.2 _ hm)).2
          · simp at hm
    · rw [if_neg hq]
      have hfacts := not_needsQuote_facts (by simpa using hq)
      constructor
      · intro hm
        have := (hfacts _ hm).1
        simp [isJsSpace] at this
      · intro hm
        have := (hfacts _ hm).1
        simp [isJsSpace] at this
  unfold entryLine
  constructor
  · intro hm
    rcases List.mem_append.mp hm with hm | hm
    · exact hkN hm
    · rcases List.mem_cons.mp hm with hm | hm
      · exact absurd hm (by decide)
      · exact henc.1 hm
  · intro hm
    rcases List.mem_append.mp hm with hm | hm
    · exact hkR hm
    · rcases List.mem_cons.mp hm with hm | hm
      · exact absurd hm (by decide)
      · exact henc.2 hm

theorem stripQuotes_quoted (v : Str) : stripQuotes ('"' :: v ++ ['"']) = v := by
  have hlast : ('"' :: v ++ ['"'] : Str).getLast? = some '"' := by
    rw [show ('"' :: v ++ ['"'] : Str) = ('"' :: v) ++ ['"'] from by simp,
      List.getLast?_concat]
  unfold stripQuotes
  rw [if_pos (Or.inr ⟨rfl, hlast⟩)]
  simp

theorem stripQuotes_raw {v : Str} (hq : needsQuote v = false) :
    stripQuotes v = v := by
  have hf := not_needsQuote_facts hq
  unfold stripQuotes
  rw [if_neg ?_]
  rintro (⟨hh, -⟩ | ⟨hh, -⟩)
  · exact (hf _ (List.mem_of_mem_head? (by simp [hh]))).2.2.1 rfl
  · exact (hf _ (List.mem_of_mem_head? (by simp [hh]))).2.2.2.1 rfl

theorem parseLine_entry {k v : Str} (hk : goodKey k) (hv : goodVal v)
    (out : List (Str × Str)) :
    parseLine out (entryLine (k, v)) = upsert out k v := by
  obtain ⟨hkE, hkEq, hkN, hkR, hkHash⟩ := hk
  have hkh := noEdgeSpace_head hkE
  have hkl := noEdgeSpace_last hkE
  have hencB : (∀ c, (encodeVal v).head? = some c → isJsSpace c = false) ∧
      (∀ c, (encodeVal v).getLast? = some c → isJsSpace c = false) := by
    rw [encodeVal_eq hv]
    by_cases hq : needsQuote v
    · rw [if_pos hq]
      constructor
      · intro c hc
        simp only [List.cons_append, List.head?_cons, Option.some.injEq] at hc
        subst hc
        decide
      · intro c hc
        rw [show ('"' :: v ++ ['"'] : Str) = ('"' :: v) ++ ['"'] from by simp,
          List.getLast?_concat] at hc
        injection hc with hc
        subst hc
        decide
    · rw [if_neg hq]
      have hf := not_needsQuote_facts (by simpa using hq)
      constructor
      · intro c hc
        exact (hf c (List.mem_of_mem_head? (by simp [hc]))).1
      · intro c hc
        exact (hf c (List.mem_of_getLast?_eq_some hc)).1
  have htrim : trimL (entryLine (k, v)) = entryLine (k, v) := by
    apply trimL_eq_self
    · intro c hc
      unfold entryLine at hc
      cases k with
      | nil =>
        simp only [List.nil_append, List.head?_cons, Option.some.injEq] at hc
        subst hc
        decide
      | cons a t =>
        simp only [List.cons_append, List.head?_cons, Option.some.injEq] at hc
        subst hc
        exact hkh _ rfl
    · intro c hc
      have hsh : entryLine (k, v) = (k ++ ['=']) ++ encodeVal v := by
        simp [entryLine]
      rw [hsh, List.getLast?_append] at hc
      cases henc : (encodeVal v).getLast? with
      | some d =>
        rw [henc, Option.or_some] at hc
        injection hc with hc
        exact hencB.2 c (by rw [henc, hc])
      | none =>
        rw [henc, Option.none_or] at hc
        rw [List.getLast?_concat] at hc
        injection hc with hc
        subst hc
        decide
  have hne2 : ¬ ((entryLine (k, v)).isEmpty = true) := by
    simp [entryLine]
  have hhash2 : ¬ ((entryLine (k, v)).head? = some '#') := by
    unfold entryLine
    cases k with
    | nil => simp
    | cons a t =>
      simp only [List.cons_append, List.head?_cons]
      intro hc
      injection hc with hac
      exact hkHash (by rw [List.head?_cons, hac])
  have hidx : (entryLine (k, v)).findIdx? (fun c => c = '=') = some k.length := by
    unfold entryLine
    have := findIdx_entry k 0 (encodeVal v) hkEq
    simpa using this
  have hkey : trimL ((entryLine (k, v)).take k.length) = k := by
    unfold entryLine
    rw [List.take_left]
    exact trimL_eq_self hkh hkl
  have hval : stripQuotes (trimL ((entryLine (k, v)).drop (k.length + 1))) = v := by
    have hsh : entryLine (k, v) = (k ++ ['=']) ++ encodeVal v := by
      simp [entryLine]
    rw [hsh, List.drop_left' (by simp)]
    rw [trimL_eq_self hencB.1 hencB.2]
    rw [encodeVal_eq hv]
    by_cases hq : needsQuote v
    · rw [if_pos hq]
      exact stripQuotes_quoted v
    · rw [if_neg hq]
      exact stripQuotes_raw (by simpa using hq)
  unfold parseLine
  dsimp only
  rw [htrim, if_neg hne2, if_neg hhash2, hidx]
  dsimp only
  rw [hkey, hval]

theorem upsert_append {out : List (Str × Str)} {k : Str} (v : Str)
    (h : ∀ q ∈ out, q.1 ≠ k) : upsert out k v = out ++ [(k, v)] := by
  unfold upsert
  rw [if_neg ?_]
  intro hc
  rw [List.any_eq_true] at hc
  obtain ⟨q, hq, hqk⟩ := hc
  exact h q hq (by simpa using hqk)

theorem upsert_replace {out : List (Str × Str)} {k : Str} (v : Str)
    (h : ∃ q ∈ out, q.1 = k) : upsert out k v
      = out.map (fun p => if p.1 = k then (k, v) else p) := by
  unfold upsert
  rw [if_pos ?_]
  rw [List.any_eq_true]
  obtain ⟨q, hq, hqk⟩ := h
  exact ⟨q, hq, by simpa using hqk⟩

theorem stringify_singleton (p : Str × Str) :
    stringifyDotEnv [p] = entryLine p ++ ['\n'] := by
  simp [stringifyDotEnv, List.intercalate]

theorem stringify_cons_cons (p q : Str × Str) (rest : List (Str × Str)) :
    stringifyDotEnv (p :: q :: rest)
      = entryLine p ++ '\n' :: stringifyDotEnv (q :: rest) := by
  simp [stringifyDotEnv, List.intercalate]

theorem parse_fold : ∀ (m acc : List (Str × Str)),
    (∀ p ∈ m, goodKey p.1) → (∀ p ∈ m, goodVal p.2) →
    (m.map Prod.fst).Nodup →
    (∀ p ∈ m, ∀ q ∈ acc, q.1 ≠ p.1) →
    (splitRN (stringifyDotEnv m)).foldl parseLine acc = acc ++ m := by
  intro m
  induction m with
  | nil =>
    intro acc _ _ _ _
    rw [List.append_nil]
    rfl
  | cons p rest ih =>
    intro acc hgk hgv hnd hdisj
    obtain ⟨k, v⟩ := p
    have hk : goodKey k := hgk (k, v) (by simp)
    have hv : goodVal v := hgv (k, v) (by simp)
    have hnb := entry_no_break hk hv
    cases rest with
    | nil =>
      rw [stringify_singleton,
        show entryLine (k, v) ++ ['\n'] = entryLine (k, v) ++ '\n' :: []
          from rfl,
        splitRN_append _ _ hnb.1 hnb.2]
      show List.foldl parseLine acc [entryLine (k, v), []] = acc ++ [(k, v)]
      rw [List.foldl_cons, parseLine_entry hk hv, List.foldl_cons,
        parseLine_blank, List.foldl_nil]
      exact upsert_append v (fun q hq => hdisj (k, v) (by simp) q hq)
    | cons q rest2 =>
      rw [stringify_cons_cons, splitRN_append _ _ hnb.1 hnb.2,
        List.foldl_cons, parseLine_entry hk hv,
        upsert_append v (fun q2 hq2 => hdisj (k, v) (by simp) q2 hq2)]
      have hknotin : k ∉ (q :: rest2).map Prod.fst := by
        have := hnd
        rw [List.map_cons, List.nodup_cons] at this
        exact this.1
      rw [ih (acc ++ [(k, v)])
        (fun p hp => hgk p (List.mem_cons_of_mem _ hp))
        (fun p hp => hgv p (List.mem_cons_of_mem _ hp))
        (by
          have := hnd
          rw [List.map_cons, List.nodup_cons] at this
          exact this.2)
        (by
          intro p hp q2 hq2
          rcases List.mem_append.mp hq2 with hq2 | hq2
          · exact hdisj p (List.mem_cons_of_mem _ hp) q2 hq2
          · simp only [List.mem_singleton] at hq2
            subst hq2
            intro hcontra
            refine hknotin ?_
            rw [show k = p.1 from hcontra]
            exact List.mem_map_of_mem Prod.fst hp)]
      simp

/-- C4 (amended): the dotenv round-trip `parseDotEnv (stringifyDotEnv m) = m`
holds for mappings whose keys have no leading/trailing whitespace, contain no
`=` or line breaks, do not start with `#`, and are pairwise distinct, and
whose values contain no double quote, no backslash, and no control
characters (spaces, `#`, single quotes and backticks are fine and are
JSON-quoted). -/
theorem parse_stringify_roundtrip (m : List (Str × Str))
    (hgk : ∀ p ∈ m, goodKey p.1) (hgv : ∀ p ∈ m, goodVal p.2)
    (hnd : (m.map Prod.fst).Nodup) :
    parseDotEnv (stringifyDotEnv m) = m := by
  unfold parseDotEnv
  have h := parse_fold m [] hgk hgv hnd (by simp)
  simpa using h

/-- C4 counterexample: for the one-entry mapping `K ↦ "` (a single double
quote), `stringifyDotEnv` writes the JSON-escaped `K="\""`, but `parseDotEnv`
only strips the outer quotes without unescaping, reading back `\"`
(backslash + quote) — so the round trip fails on values containing quotes. -/
theorem parse_stringify_not_inverse :
    parseDotEnv (stringifyDotEnv [(['K'], ['"'])]) ≠ [(['K'], ['"'])] := by
  decide

/-- C4 witness: the round trip at a concrete mapping with spaces, a `#`, and
a single quote in one value. -/
theorem parse_stringify_roundtrip_witness :
    parseDotEnv (stringifyDotEnv
      [("KEY".toList, "a b #c'd".toList), ("K2".toList, "plain".toList)])
      = [("KEY".toList, "a b #c'd".toList), ("K2".toList, "plain".toList)] :=
  parse_stringify_roundtrip _ (by decide) (by decide) (by decide)

/-- C10: `parseDotEnv` is lenient — a trimmed line that is non-blank, not a
comment, but contains no `=` character is silently ignored — and when the
same key appears on multiple lines the last occurrence wins (`parseDotEnv`
itself is total by construction). -/
theorem parseDotEnv_lenient :
    (∀ (out : List (Str × Str)) (raw : Str),
      '=' ∉ trimL raw → parseLine out raw = out) ∧
    (∀ (k v1 v2 : Str), goodKey k → goodVal v1 → goodVal v2 →
      parseDotEnv (entryLine (k, v1) ++ '\n' :: entryLine (k, v2))
        = [(k, v2)]) := by
  constructor
  · intro out raw hne
    unfold parseLine
    dsimp only
    by_cases h1 : (trimL raw).isEmpty = true
    · rw [if_pos h1]
    · rw [if_neg h1]
      by_cases h2 : (trimL raw).head? = some '#'
      · rw [if_pos h2]
      · rw [if_neg h2]
        have hidx : (trimL raw).findIdx? (fun c => c = '=') = none := by
          rw [List.findIdx?_eq_none_iff]
          intro c hc
          show decide (c = '=') = false
          rw [decide_eq_false_iff_not]
          intro hcc
          subst hcc
          exact hne hc
        rw [hidx]
  · intro k v1 v2 hk hv1 hv2
    have hnb := entry_no_break hk hv1
    have hnb2 := entry_no_break hk hv2
    unfold parseDotEnv
    rw [splitRN_append _ _ hnb.1 hnb.2, splitRN_single _ hnb2.1 hnb2.2]
    show parseLine (parseLine [] (entryLine (k, v1))) (entryLine (k, v2))
      = [(k, v2)]
    rw [parseLine_entry hk hv1, parseLine_entry hk hv2,
      upsert_append v1 (by simp), List.nil_append,
      upsert_replace v2 ⟨(k, v1), by simp, rfl⟩]
    simp

/-- C10 witness: a non-blank non-comment line without `=` is ignored, and of
two lines with the same key the later value wins, at concrete inputs. -/
theorem parseDotEnv_lenient_witness :
    parseLine [("A".toList, "1".toList)] "noequals".toList
      = [("A".toList, "1".toList)] ∧
    parseDotEnv (entryLine ("K".toList, "one".toList)
        ++ '\n' :: entryLine ("K".toList, "two".toList))
      = [("K".toList, "two".toList)] :=
  ⟨parseDotEnv_lenient.1 _ _ (by decide),
   parseDotEnv_lenient.2 "K".toList "one".toList "two".toList (by decide)
     (by decide) (by decide)⟩

end Orchestrator

